import Mathlib

/-!
Verification of the storage-access layer of the cloud-resume-challenge
backend (src/backend/src/repositories): the single-table key design, the
draft/published state machine with conditional writes, the category
aggregates, and the deduplicated visitor/view counters.

The DynamoDB table is modelled as association lists keyed by the records'
(partition, sort) keys; each repository's key space is disjoint
("BLOG#...", "ANALYTICS#...", "VISITOR#..."), so each repository is given
its own sub-store.  The wall clock is modelled as an environment function
from the index of a `datetime.now()` call to the string it returns; uuid
generation likewise.  Conditional updates follow base.py's `update_item`:
a `ConditionalCheckFailedException` (condition false, including when the
item is absent) is returned as `none`.
-/

namespace Portfolio

/-- Association-list lookup: the store's `get_item` on a key. -/
def findV {κ α : Type} [DecidableEq κ] (store : List (κ × α)) (k : κ) : Option α :=
  match store.find? (fun p => p.1 = k) with
  | some p => some p.2
  | none => none

/-- Association-list upsert: the store's `put_item` / applied update on a
key (replace the record under the key if present, append it otherwise). -/
def putV {κ α : Type} [DecidableEq κ] : List (κ × α) → κ → α → List (κ × α)
  | [], k, v => [(k, v)]
  | (a, b) :: t, k, v => if a = k then (k, v) :: t else (a, b) :: putV t k v

/-- Association-list removal: the store's `delete_item` on a key. -/
def delV {κ α : Type} [DecidableEq κ] : List (κ × α) → κ → List (κ × α)
  | [], _ => []
  | (a, b) :: t, k => if a = k then t else (a, b) :: delV t k

/-- base.py `update_item` with a ConditionExpression.  Every condition used in
this repository (`attribute_exists(PK)`, `#status = :draft`,
`#status = :published`) evaluates false against a missing item, so a missing
key is a failed condition.  A failed condition raises
`ConditionalCheckFailedException`, which base.py converts to `None`; the
mutation is applied and the new attributes returned otherwise. -/
def update_item {κ α : Type} [DecidableEq κ] (store : List (κ × α)) (k : κ)
    (cond : α → Bool) (mutate : α → α) : List (κ × α) × Option α :=
  match findV store k with
  | none => (store, none)
  | some v => if cond v then (putV store k (mutate v), some (mutate v)) else (store, none)

/-- Bytewise lexicographic comparison of character lists: the order in which
the backing store keeps sort keys. -/
def lexLtChars : List Char → List Char → Bool
  | [], [] => false
  | [], _ :: _ => true
  | _ :: _, [] => false
  | c :: cs, d :: ds => if c < d then true else if d < c then false else lexLtChars cs ds

/-- Lexicographic strict order on strings (the store's sort-key order). -/
def strLexLt (a b : String) : Bool := lexLtChars a.data b.data

/-- Lexicographic non-strict order on strings. -/
def strLexLe (a b : String) : Bool := !(strLexLt b a)

/-- Insertion step for sorting by a boolean "ordered before or equal" test. -/
def insertLe {α : Type} (le : α → α → Bool) (x : α) : List α → List α
  | [] => [x]
  | y :: ys => if le x y then x :: y :: ys else y :: insertLe le x ys

/-- Insertion sort by a boolean comparison: how the store returns query
results ordered on the index sort key. -/
def sortLe {α : Type} (le : α → α → Bool) : List α → List α
  | [] => []
  | x :: xs => insertLe le x (sortLe le xs)

/-- Big-endian base-10 rendering of `n` at exactly `w` digits (the low digit
is peeled off at each step). -/
def padBE : Nat → Nat → List Char
  | 0, _ => []
  | w + 1, n => padBE w (n / 10) ++ [Nat.digitChar (n % 10)]

/-- Number of decimal digits of `n`, computed with `fuel ≥ n` steps. -/
def digitsLenAux : Nat → Nat → Nat
  | 0, _ => 1
  | fuel + 1, n => if n < 10 then 1 else digitsLenAux fuel (n / 10) + 1

/-- Python `str(n)` for a non-negative integer: its decimal digits, no
leading zeros (except for `"0"` itself). -/
def decRepr (n : Nat) : String := String.mk (padBE (digitsLenAux n n) n)

/-- Python `str.zfill(width)` on an unsigned decimal string: left-pad with
`'0'` up to `width` characters. -/
def zfill (width : Nat) (s : String) : String :=
  String.mk (List.replicate (width - s.data.length) '0' ++ s.data)

/-- Accumulating splitter behind `pyWords`. -/
def wordsAux : List Char → List Char → List String
  | [], acc => if acc.isEmpty then [] else [String.mk acc.reverse]
  | c :: cs, acc =>
    if c.isWhitespace then
      if acc.isEmpty then wordsAux cs [] else String.mk acc.reverse :: wordsAux cs []
    else wordsAux cs (c :: acc)

/-- Python `str.split()` with no separator: the maximal whitespace-free runs,
with no empty words. -/
def pyWords (s : String) : List String := wordsAux s.data []

/-- blog.py read-time formula: word count over 200 words per minute,
floored at 1. -/
def readTimeOf (content : String) : Nat := max 1 ((pyWords content).length / 200)

/-- blog.py slug generation: lowercase, spaces to hyphens, keep only
alphanumeric characters and hyphens. -/
def slugify (title : String) : String :=
  let lowered := (title.toLower.map (fun c => if c = ' ' then '-' else c))
  String.mk (lowered.data.filter (fun c => c.isAlphanum || c = '-'))

/-- Python truthiness of an optional string field read with `.get`: the
alternative is chosen when the field is missing or empty (`x or alt`). -/
def orElseStr (o : Option String) (alt : String) : String :=
  match o with
  | some s => if s = "" then alt else s
  | none => alt

/-- Whether a `data.get(key)` read is truthy (present and non-empty). -/
def truthy (o : Option String) : Bool :=
  match o with
  | some s => s ≠ ""
  | none => false

/-- Execution environment: `clock k` is the string returned by the `k`-th
`datetime.now(...).isoformat()` reading, `fresh k` the `k`-th generated
`uuid4` string. -/
structure Env where
  clock : Nat → String
  fresh : Nat → String

/-- The `Data` map of a blog item.  `status` is absent at creation and only
ever written by publish/unpublish (`from_item` overrides it with the
top-level `Status` attribute when reading). -/
structure BlogData where
  id : String
  slug : String
  title : String
  excerpt : String
  content : String
  category : String
  tags : List String
  readTime : Nat
  publishedAt : Option String
  createdAt : String
  updatedAt : String
  status : Option String
deriving DecidableEq, Repr

/-- A stored blog item (PK = `BLOG#id`, SK = `METADATA`). -/
structure BlogItem where
  PK : String
  SK : String
  GSI1PK : String
  GSI1SK : String
  EntityType : String
  Status : String
  Data : BlogData
deriving DecidableEq, Repr

/-- The dict returned to callers: the `Data` map merged with the top-level
`Status` attribute. -/
structure BlogPost where
  id : String
  slug : String
  title : String
  excerpt : String
  content : String
  category : String
  tags : List String
  readTime : Nat
  publishedAt : Option String
  createdAt : String
  updatedAt : String
  status : String
deriving DecidableEq, Repr

/-- The `Data` map of a category aggregate record
(PK = `BLOG#CATEGORY#name`, SK = `COUNT`). -/
structure CatData where
  category : String
  count : Int
deriving DecidableEq, Repr

/-- The blog repository's slice of the table, plus the clock / uuid call
counters. -/
structure DB where
  posts : List (String × BlogItem)
  cats : List (String × CatData)
  time : Nat
  uuids : Nat
deriving DecidableEq, Repr

/-- The empty table. -/
def emptyDB : DB := { posts := [], cats := [], time := 0, uuids := 0 }

/-- A caller-supplied field map for `create` (absent key = `none`). -/
structure BlogFields where
  id : Option String := none
  slug : Option String := none
  title : Option String := none
  excerpt : Option String := none
  content : Option String := none
  category : Option String := none
  tags : Option (List String) := none
  publishedAt : Option String := none
  createdAt : Option String := none
  updatedAt : Option String := none
  status : Option String := none
deriving DecidableEq, Repr

/-- blog.py `to_item`: build the single-table item from a field dict.
`id`, `createdAt` and `updatedAt` fall back through Python `or` (a uuid
resp. a clock reading is consumed only when the field is falsy); the other
fields are read with `.get` defaults.  Returns the item together with the
advanced clock and uuid counters. -/
def to_item (env : Env) (data : BlogFields) (time uuids : Nat) :
    BlogItem × Nat × Nat :=
  let idGiven := truthy data.id
  let blog_id := if idGiven then data.id.getD "" else env.fresh uuids
  let uuids := if idGiven then uuids else uuids + 1
  let status := data.status.getD "DRAFT"
  let published_at := data.publishedAt
  let caGiven := truthy data.createdAt
  let created_at := if caGiven then data.createdAt.getD "" else env.clock time
  let time := if caGiven then time else time + 1
  let content := data.content.getD ""
  let read_time := max 1 ((pyWords content).length / 200)
  let uaGiven := truthy data.updatedAt
  let updated_at := if uaGiven then data.updatedAt.getD "" else env.clock time
  let time := if uaGiven then time else time + 1
  let orderToken := orElseStr published_at created_at
  ({ PK := "BLOG#" ++ blog_id
     SK := "METADATA"
     GSI1PK := "BLOG#STATUS#" ++ status
     GSI1SK := "BLOG#" ++ orderToken
     EntityType := "BLOG"
     Status := status
     Data := { id := blog_id
               slug := data.slug.getD ""
               title := data.title.getD ""
               excerpt := data.excerpt.getD ""
               content := content
               category := data.category.getD ""
               tags := data.tags.getD []
               readTime := read_time
               publishedAt := published_at
               createdAt := created_at
               updatedAt := updated_at
               status := none } },
   time, uuids)

/-- blog.py `from_item`: the `Data` map with `status` taken from the
top-level `Status` attribute (which every stored blog item carries). -/
def from_item (item : BlogItem) : BlogPost :=
  { id := item.Data.id
    slug := item.Data.slug
    title := item.Data.title
    excerpt := item.Data.excerpt
    content := item.Data.content
    category := item.Data.category
    tags := item.Data.tags
    readTime := item.Data.readTime
    publishedAt := item.Data.publishedAt
    createdAt := item.Data.createdAt
    updatedAt := item.Data.updatedAt
    status := item.Status }

/-- blog.py `_increment_category_count`: lazily create the aggregate record
with count 0, then add 1 (two unconditional upserts, composed). -/
def increment_category_count (st : DB) (category : String) : DB :=
  let key := "BLOG#CATEGORY#" ++ category
  let cur := (findV st.cats key).getD { category := category, count := 0 }
  { st with cats := putV st.cats key { cur with count := cur.count + 1 } }

/-- The raw store update inside `_decrement_category_count`: the update
expression `SET #data.#count = #data.#count - :decrement` has no
`if_not_exists` fallback, so it fails with a `ValidationException` when the
aggregate record (and hence the `Data.count` path) is absent. -/
def decrement_category_count_raw (st : DB) (category : String) :
    Except String DB :=
  let key := "BLOG#CATEGORY#" ++ category
  match findV st.cats key with
  | none => .error "ValidationException"
  | some d => .ok { st with cats := putV st.cats key { d with count := d.count - 1 } }

/-- blog.py `_decrement_category_count`: the raw update with its errors
caught and swallowed (logged only), per the surrounding try/except. -/
def decrement_category_count (st : DB) (category : String) : DB :=
  match decrement_category_count_raw st category with
  | .ok st' => st'
  | .error _ => st

/-- The field-map preprocessing of blog.py `create`: derive the slug when
absent (and a title is present), force status DRAFT, and stamp `createdAt`
and `updatedAt` with two successive clock readings. -/
def createData (env : Env) (st : DB) (data : BlogFields) : BlogFields :=
  let data :=
    if !(truthy data.slug) && truthy data.title then
      { data with slug := some (slugify (data.title.getD "")) }
    else data
  { data with
    status := some "DRAFT"
    createdAt := some (env.clock st.time)
    updatedAt := some (env.clock (st.time + 1)) }

/-- blog.py `create`: preprocess the field map, build and write the item,
and bump the category aggregate for a truthy category. -/
def create (env : Env) (st : DB) (data : BlogFields) : DB × BlogPost :=
  let data := createData env st data
  let r := to_item env data (st.time + 2) st.uuids
  let item := r.1
  let st := { st with posts := putV st.posts item.PK item, time := r.2.1, uuids := r.2.2 }
  let st := if truthy data.category then
      increment_category_count st (data.category.getD "")
    else st
  (st, from_item item)

/-- blog.py `get_by_id`. -/
def get_by_id (st : DB) (blog_id : String) : Option BlogPost :=
  (findV st.posts ("BLOG#" ++ blog_id)).map from_item

/-- A caller-supplied partial field map for `update`.  Only the keys listed
in the update loop (`title`, `excerpt`, `content`, `category`, `tags`,
`readTime`, `updatedAt`) are ever written; any other supplied key is
skipped by the loop, so it is not represented. -/
structure UpdateFields where
  title : Option String := none
  excerpt : Option String := none
  content : Option String := none
  category : Option String := none
  tags : Option (List String) := none
  readTime : Option Nat := none
  updatedAt : Option String := none
deriving DecidableEq, Repr

/-- Apply the `SET #data.#key = :key` assignments of blog.py `update` to a
stored `Data` map. -/
def applyUpdateData (d : BlogData) (f : UpdateFields) : BlogData :=
  let d := match f.title with | some v => { d with title := v } | none => d
  let d := match f.excerpt with | some v => { d with excerpt := v } | none => d
  let d := match f.content with | some v => { d with content := v } | none => d
  let d := match f.category with | some v => { d with category := v } | none => d
  let d := match f.tags with | some v => { d with tags := v } | none => d
  let d := match f.readTime with | some v => { d with readTime := v } | none => d
  let d := match f.updatedAt with | some v => { d with updatedAt := v } | none => d
  d

/-- The field-map preprocessing of blog.py `update`: refresh `updatedAt`
from the clock reading at tick `t`, and recompute `readTime` whenever
`content` is supplied (overriding any caller-supplied readTime). -/
def updateFieldsFinal (env : Env) (t : Nat) (data : UpdateFields) : UpdateFields :=
  let data := { data with updatedAt := some (env.clock t) }
  match data.content with
  | some content =>
      { data with readTime := some (max 1 ((pyWords content).length / 200)) }
  | none => data

/-- The category-aggregate reconciliation of blog.py `update`, run when the
supplied field map contains `category`: if it differs from the current
post's category, best-effort decrement the truthy old one and increment the
truthy new one. -/
def reconcileCategories (st : DB) (oldc newc : String) : DB :=
  if newc ≠ oldc then
    let st := if oldc ≠ "" then decrement_category_count st oldc else st
    if newc ≠ "" then increment_category_count st newc else st
  else st

/-- blog.py `update`: read the current post (absent → `None`), preprocess
the field map (`updatedAt` refresh and `readTime` recomputation), apply the
`SET` expression on the `Data` attributes under `attribute_exists(PK)`,
then reconcile the category aggregates when a category was supplied. -/
def update (env : Env) (st : DB) (blog_id : String) (data : UpdateFields) :
    DB × Option BlogPost :=
  match get_by_id st blog_id with
  | none => (st, none)
  | some current_post =>
    let data := updateFieldsFinal env st.time data
    let st := { st with time := st.time + 1 }
    let (posts, updated) := update_item st.posts ("BLOG#" ++ blog_id)
      (fun _ => true)
      (fun item => { item with Data := applyUpdateData item.Data data })
    let st := { st with posts := posts }
    let st := match data.category with
      | some newc => reconcileCategories st current_post.category newc
      | none => st
    (st, updated.map from_item)

/-- blog.py `delete`: read the post (absent → `False`), delete the item
under `attribute_exists(PK)`, then best-effort decrement the (former)
category's aggregate. -/
def delete (st : DB) (blog_id : String) : DB × Bool :=
  match get_by_id st blog_id with
  | none => (st, false)
  | some post =>
    match findV st.posts ("BLOG#" ++ blog_id) with
    | none => (st, false)
    | some _ =>
      let st := { st with posts := delV st.posts ("BLOG#" ++ blog_id) }
      let st := if post.category ≠ "" then
          decrement_category_count st post.category
        else st
      (st, true)

/-- blog.py `publish`: one conditional update keyed on `#status = :draft`
that flips the status, rewrites both index keys, and stamps
`publishedAt`/`updatedAt` — all together or not at all. -/
def publish (env : Env) (st : DB) (blog_id : String) : DB × Option BlogPost :=
  let published_at := env.clock st.time
  let st := { st with time := st.time + 1 }
  let (posts, updated) := update_item st.posts ("BLOG#" ++ blog_id)
    (fun item => item.Status = "DRAFT")
    (fun item =>
      { item with
        Status := "PUBLISHED"
        GSI1PK := "BLOG#STATUS#PUBLISHED"
        GSI1SK := "BLOG#" ++ published_at
        Data := { item.Data with
          status := some "PUBLISHED"
          publishedAt := some published_at
          updatedAt := published_at } })
  ({ st with posts := posts }, updated.map from_item)

/-- blog.py `unpublish`: read the post for its `createdAt` (absent →
`None`; the clock is still read once for the unused `.get` default), then
one conditional update keyed on `#status = :published` that flips the
status back, restores the created-at index sort key, clears `publishedAt`
and stamps `updatedAt`. -/
def unpublish (env : Env) (st : DB) (blog_id : String) : DB × Option BlogPost :=
  match get_by_id st blog_id with
  | none => (st, none)
  | some post =>
    let created_at := post.createdAt
    let updated_at := env.clock (st.time + 1)
    let st := { st with time := st.time + 2 }
    let (posts, updated) := update_item st.posts ("BLOG#" ++ blog_id)
      (fun item => item.Status = "PUBLISHED")
      (fun item =>
        { item with
          Status := "DRAFT"
          GSI1PK := "BLOG#STATUS#DRAFT"
          GSI1SK := "BLOG#" ++ created_at
          Data := { item.Data with
            status := some "DRAFT"
            publishedAt := none
            updatedAt := updated_at } })
    ({ st with posts := posts }, updated.map from_item)

/-- The store's `query` on index GSI1 for blog items: key-condition filter,
sort-key order (descending when `scanForward` is false, as `list_posts`
always requests), resume strictly after the pagination key, then `Limit`.
The caller's FilterExpression is applied afterwards, as DynamoDB does. -/
def queryBlogGSI1 (posts : List (String × BlogItem)) (keyCond : BlogItem → Bool)
    (scanForward : Bool) (limit : Nat) (esk : Option String) : List BlogItem :=
  let items := (posts.map Prod.snd).filter keyCond
  let sorted := sortLe
    (fun (a b : BlogItem) => if scanForward then strLexLe a.GSI1SK b.GSI1SK
                else strLexLe b.GSI1SK a.GSI1SK) items
  let resumed := match esk with
    | some k => sorted.dropWhile (fun (it : BlogItem) => strLexLe k it.GSI1SK)
    | none => sorted
  resumed.take limit

/-- What blog.py `list_posts` returns (the opaque LastEvaluatedKey
passthrough is not represented). -/
structure ListResult where
  items : List BlogPost
  count : Nat
deriving DecidableEq, Repr

/-- blog.py `list_posts`: a GSI1 query on `GSI1PK = BLOG#STATUS#status`
(or a `begins_with` fan across all statuses when no status is given),
newest-first, with the optional category filter applied after the query
limit. -/
def list_posts (st : DB) (status : Option String) (category : Option String)
    (limit : Nat) (esk : Option String) : ListResult :=
  let keyCond : BlogItem → Bool := match status with
    | some s => fun (it : BlogItem) => it.GSI1PK = "BLOG#STATUS#" ++ s
    | none => fun (it : BlogItem) => it.GSI1PK.startsWith "BLOG#STATUS#"
  let raw := queryBlogGSI1 st.posts keyCond false limit esk
  let raw := match category with
    | some c => raw.filter (fun (it : BlogItem) => it.Data.category = c)
    | none => raw
  let items := raw.map from_item
  { items := items, count := items.length }

/-- A client operation against the blog repository. -/
inductive Op where
  | create (data : BlogFields)
  | update (id : String) (data : UpdateFields)
  | publish (id : String)
  | unpublish (id : String)
  | delete (id : String)
deriving DecidableEq, Repr

/-- Run one operation, keeping the resulting state. -/
def applyOp (env : Env) (st : DB) : Op → DB
  | .create d => (create env st d).1
  | .update i d => (update env st i d).1
  | .publish i => (publish env st i).1
  | .unpublish i => (unpublish env st i).1
  | .delete i => (delete st i).1

/-- Run a sequence of operations from the empty table. -/
def applyOps (env : Env) (ops : List Op) : DB :=
  ops.foldl (applyOp env) emptyDB

/-! ## Analytics repository (analytics.py) -/

/-- Environment for the analytics repository: `clock k` is the `k`-th
`datetime.now` reading rendered as an ISO string, `epoch k` the same
reading as integer epoch seconds (used for the 24h `ExpiresAt`). -/
structure AEnv where
  clock : Nat → String
  epoch : Nat → Nat

/-- The `Data` map of a per-content view aggregate
(PK = `ANALYTICS#type#id`, SK = `VIEWS`). -/
structure ViewData where
  contentId : String
  contentType : String
  viewCount : Nat
  lastViewed : String
deriving DecidableEq, Repr

/-- A stored view aggregate item.  `GSI1SK` is only written by the padded
view-count update that follows the first increment, so it is optional; an
item without it does not appear in the (sparse) GSI1 index. -/
structure ViewItem where
  GSI1PK : String
  GSI1SK : Option String
  EntityType : String
  Data : ViewData
deriving DecidableEq, Repr

/-- The `Data` map of a session view marker
(PK = `ANALYTICS#SESSION#sid`, SK = `type#id`), plus the top-level
`ExpiresAt` TTL attribute (epoch seconds; the store purges the record
about 24h later — the purge itself is background behaviour of the store,
not of this code). -/
structure SessionView where
  viewedAt : String
  expiresAt : Nat
deriving DecidableEq, Repr

/-- The `Data` map of the grand-total record (PK = `ANALYTICS#TOTAL`,
SK = `VIEWS`). -/
structure TotalViews where
  totalViews : Nat
  lastUpdated : String
deriving DecidableEq, Repr

/-- The analytics repository's slice of the table.  View aggregates are
keyed by `type#id`, session markers by the pair (session id, `type#id`). -/
structure ADB where
  views : List (String × ViewItem)
  sessions : List ((String × String) × SessionView)
  total : Option TotalViews
  time : Nat
deriving DecidableEq, Repr

/-- The empty analytics table slice. -/
def emptyADB : ADB := { views := [], sessions := [], total := none, time := 0 }

/-- The GSI1 sort token written for a view count: `str(count).zfill(10)`
behind the fixed kind scope. -/
def viewToken (count : Nat) : String :=
  "ANALYTICS#VIEWS#" ++ zfill 10 (decRepr count)

/-- analytics.py `track_view`: if this session already has a marker for the
content, return the current aggregate count unchanged (no writes at all);
otherwise lazily initialize the aggregate, increment its count, rewrite the
zero-padded `GSI1SK` token, write the session marker with a 24h TTL, and
bump the lazily initialized grand total.  Returns the `views` value. -/
def track_view (env : AEnv) (st : ADB) (content_type content_id session_id : String) :
    ADB × Nat :=
  let subject := content_type ++ "#" ++ content_id
  match findV st.sessions (session_id, subject) with
  | some _ =>
    let views := match findV st.views subject with
      | some vi => vi.Data.viewCount
      | none => 0
    (st, views)
  | none =>
    let initViews := match findV st.views subject with
      | some _ => st.views
      | none => putV st.views subject
          { GSI1PK := "ANALYTICS#" ++ content_type
            GSI1SK := none
            EntityType := "ANALYTICS_VIEW"
            Data := { contentId := content_id
                      contentType := content_type
                      viewCount := 0
                      lastViewed := env.clock st.time } }
    let cur := (findV initViews subject).getD
      { GSI1PK := "ANALYTICS#" ++ content_type, GSI1SK := none
        EntityType := "ANALYTICS_VIEW"
        Data := { contentId := content_id, contentType := content_type
                  viewCount := 0, lastViewed := env.clock st.time } }
    let bumped := { cur with Data :=
      { cur.Data with viewCount := cur.Data.viewCount + 1
                      lastViewed := env.clock (st.time + 1) } }
    let view_count := bumped.Data.viewCount
    let views := putV initViews subject
      { bumped with GSI1SK := some (viewToken view_count) }
    let sessions := putV st.sessions (session_id, subject)
      { viewedAt := env.clock (st.time + 3), expiresAt := env.epoch (st.time + 2) + 86400 }
    let total := (st.total.getD
      { totalViews := 0, lastUpdated := env.clock (st.time + 4) })
    let total := some { total with totalViews := total.totalViews + 1
                                   lastUpdated := env.clock (st.time + 5) }
    ({ views := views, sessions := sessions, total := total, time := st.time + 6 },
     view_count)

/-- analytics.py `get_view_count`. -/
def get_view_count (st : ADB) (content_type content_id : String) : Nat :=
  match findV st.views (content_type ++ "#" ++ content_id) with
  | some vi => vi.Data.viewCount
  | none => 0

/-- analytics.py `get_total_views`. -/
def get_total_views (st : ADB) : Nat :=
  match st.total with
  | some t => t.totalViews
  | none => 0

/-- The store's descending GSI1 query used by `get_top_content`: items of
the partition that carry the sort key, ordered descending on it, truncated
to the limit. -/
def queryViewsDesc (views : List (String × ViewItem)) (gsi1pk : String)
    (limit : Nat) : List ViewItem :=
  let items := (views.map Prod.snd).filter
    (fun (it : ViewItem) => it.GSI1PK = gsi1pk && it.GSI1SK.isSome)
  (sortLe (fun (a b : ViewItem) =>
    strLexLe (b.GSI1SK.getD "") (a.GSI1SK.getD "")) items).take limit

/-- The per-kind ranked lists returned by `get_top_content`
(contentId paired with its view count). -/
structure TopContent where
  blogs : List (String × Nat)
  projects : List (String × Nat)
  certifications : List (String × Nat)
deriving DecidableEq, Repr

/-- analytics.py `get_top_content`: three descending GSI1 queries, one per
content kind, each truncated to `limit`. -/
def get_top_content (st : ADB) (limit : Nat) : TopContent :=
  let pick := fun (kind : String) =>
    (queryViewsDesc st.views ("ANALYTICS#" ++ kind) limit).map
      (fun (it : ViewItem) => (it.Data.contentId, it.Data.viewCount))
  { blogs := pick "blog", projects := pick "project", certifications := pick "certification" }

/-! ## Visitor repository (visitor.py) -/

/-- Environment for the visitor repository: `clock k` is the `k`-th
`datetime.now` reading as an ISO string; `dayIdx k` is the calendar day
that reading falls on (as an abstract day number) and `dayStr` renders a
day number as its `YYYY-MM-DD` string; `ttl k` is the
next-midnight-plus-a-day epoch value computed from the `k`-th reading. -/
structure VEnv where
  clock : Nat → String
  dayIdx : Nat → Int
  dayStr : Int → String
  ttl : Nat → Nat

/-- The `Data` map of a daily visitor aggregate
(PK = `VISITOR#DAILY#date`, SK = `COUNT`). -/
structure DailyData where
  date : String
  count : Nat
deriving DecidableEq, Repr

/-- The `Data` map of a visitor session marker
(PK = `VISITOR#SESSION#sid`, SK = `TRACKED`), plus its `ExpiresAt` TTL. -/
structure VSession where
  lastTrackedDate : String
  lastTrackedTime : String
  expiresAt : Nat
deriving DecidableEq, Repr

/-- The `Data` map of the visitor grand total (PK = `VISITOR#TOTAL`,
SK = `COUNT`). -/
structure VTotal where
  totalCount : Nat
  lastUpdated : String
deriving DecidableEq, Repr

/-- The visitor repository's slice of the table: daily aggregates keyed by
their date string, session markers keyed by session id. -/
structure VDB where
  daily : List (String × DailyData)
  sessions : List (String × VSession)
  total : Option VTotal
  time : Nat
deriving DecidableEq, Repr

/-- The empty visitor table slice. -/
def emptyVDB : VDB := { daily := [], sessions := [], total := none, time := 0 }

/-- The not-yet-tracked-today path of `track_visitor` (shared by the
missing-marker and stale-marker cases): lazily initialize today's
aggregate, increment it, rewrite the session marker with a next-midnight
TTL, re-read the daily count, and bump the lazily initialized grand total.
`today` was computed from the clock reading at tick `st.time`. -/
def track_visitor_miss (env : VEnv) (st : VDB) (session_id today : String) :
    VDB × Nat × String :=
  let cur := (findV st.daily today).getD { date := today, count := 0 }
  let daily := putV st.daily today { cur with count := cur.count + 1 }
  let sessions := putV st.sessions session_id
    { lastTrackedDate := today
      lastTrackedTime := env.clock (st.time + 2)
      expiresAt := env.ttl (st.time + 1) }
  let count := match findV daily today with
    | some d => d.count
    | none => 1
  let total := st.total.getD { totalCount := 0, lastUpdated := env.clock (st.time + 3) }
  let total := some { total with totalCount := total.totalCount + 1
                                 lastUpdated := env.clock (st.time + 4) }
  ({ daily := daily, sessions := sessions, total := total, time := st.time + 5 },
   count, session_id)

/-- visitor.py `track_visitor`: compute today's date; if this session's
marker says it was last tracked today, return the current daily count
unchanged (no writes); otherwise run the miss path. -/
def track_visitor (env : VEnv) (st : VDB) (session_id : String) :
    VDB × Nat × String :=
  let today := env.dayStr (env.dayIdx st.time)
  match findV st.sessions session_id with
  | some m =>
    if m.lastTrackedDate = today then
      let count := match findV st.daily today with
        | some d => d.count
        | none => 0
      ({ st with time := st.time + 1 }, count, session_id)
    else track_visitor_miss env st session_id today
  | none => track_visitor_miss env st session_id today

/-- visitor.py `get_total_count`. -/
def get_total_count (st : VDB) : Nat :=
  match st.total with
  | some t => t.totalCount
  | none => 0

/-- visitor.py `get_daily_trends`: build the last `days` date strings (one
fresh clock reading per loop iteration), batch-get the corresponding daily
aggregates, key their counts by the stored `Data.date`, and emit one entry
per requested date, oldest first, with 0 for dates that have no record. -/
def get_daily_trends (env : VEnv) (st : VDB) (days : Nat) : List (String × Nat) :=
  let dates := (List.range days).map
    (fun i => env.dayStr (env.dayIdx (st.time + i) - i))
  let items := dates.filterMap (fun d => findV st.daily d)
  let countMap : List (String × Nat) :=
    items.map (fun (it : DailyData) => (it.date, it.count))
  dates.reverse.map (fun d => (d, (findV countMap d).getD 0))

/-! ## Store lemmas -/

section StoreLemmas

variable {κ α : Type} [DecidableEq κ]

@[simp] theorem findV_nil (k : κ) : findV ([] : List (κ × α)) k = none := rfl

theorem findV_cons (a : κ) (b : α) (t : List (κ × α)) (k : κ) :
    findV ((a, b) :: t) k = if a = k then some b else findV t k := by
  by_cases h : a = k <;> simp [findV, List.find?_cons, h]

theorem findV_putV (l : List (κ × α)) (k : κ) (v : α) (k' : κ) :
    findV (putV l k v) k' = if k = k' then some v else findV l k' := by
  induction l with
  | nil => by_cases hkk : k = k' <;> simp [putV, findV_cons, findV, hkk]
  | cons p t ih =>
    obtain ⟨a, b⟩ := p
    by_cases hak : a = k
    · subst hak
      by_cases hak' : a = k'
      · subst hak'
        simp [putV, findV_cons]
      · simp [putV, findV_cons, hak', ih]
    · by_cases hak' : a = k'
      · subst hak'
        have hka : ¬ k = a := fun h => hak h.symm
        simp [putV, findV_cons, hak, hka, ih]
      · simp [putV, findV_cons, hak, hak', ih]

theorem mem_putV {l : List (κ × α)} {k : κ} {v : α} {p : κ × α}
    (h : p ∈ putV l k v) : p = (k, v) ∨ p ∈ l := by
  induction l with
  | nil => simpa only [putV, List.mem_singleton] using Or.inl h
  | cons q t ih =>
    obtain ⟨a, b⟩ := q
    by_cases hak : a = k
    · subst hak
      simp only [putV, if_pos] at h
      rw [List.mem_cons] at h
      rcases h with h | h
      · exact Or.inl h
      · exact Or.inr (List.mem_cons_of_mem _ h)
    · simp only [putV, if_neg hak] at h
      rw [List.mem_cons] at h
      rcases h with h | h
      · exact Or.inr (h ▸ List.mem_cons_self _ _)
      · rcases ih h with h' | h'
        · exact Or.inl h'
        · exact Or.inr (List.mem_cons_of_mem _ h')

theorem mem_delV {l : List (κ × α)} {k : κ} {p : κ × α}
    (h : p ∈ delV l k) : p ∈ l := by
  induction l with
  | nil => simp [delV] at h
  | cons q t ih =>
    obtain ⟨a, b⟩ := q
    by_cases hak : a = k
    · subst hak
      simp only [delV, if_pos] at h
      exact List.mem_cons_of_mem _ h
    · simp only [delV, if_neg hak] at h
      rw [List.mem_cons] at h
      rcases h with h | h
      · exact h ▸ List.mem_cons_self _ _
      · exact List.mem_cons_of_mem _ (ih h)

theorem findV_mem {l : List (κ × α)} {k : κ} {v : α}
    (h : findV l k = some v) : (k, v) ∈ l := by
  induction l with
  | nil => simp [findV] at h
  | cons q t ih =>
    obtain ⟨a, b⟩ := q
    rw [findV_cons] at h
    by_cases hak : a = k
    · subst hak
      rw [if_pos rfl] at h
      have hb : b = v := by injection h
      exact hb ▸ List.mem_cons_self _ _
    · rw [if_neg hak] at h
      exact List.mem_cons_of_mem _ (ih h)

theorem findV_eq_none_iff {l : List (κ × α)} {k : κ} :
    findV l k = none ↔ ∀ p ∈ l, p.1 ≠ k := by
  induction l with
  | nil => simp
  | cons q t ih =>
    obtain ⟨a, b⟩ := q
    rw [findV_cons]
    by_cases hak : a = k
    · subst hak
      simp
    · simp [hak, ih]

theorem countP_putV_found {l : List (κ × α)} {k : κ} {v : α} (w : α)
    (q : κ × α → Bool) (h : findV l k = some v) :
    (putV l k w).countP q + (if q (k, v) then 1 else 0) =
      l.countP q + (if q (k, w) then 1 else 0) := by
  induction l with
  | nil => simp [findV] at h
  | cons p t ih =>
    obtain ⟨a, b⟩ := p
    rw [findV_cons] at h
    by_cases hak : a = k
    · subst hak
      rw [if_pos rfl] at h
      have hb : b = v := by injection h
      subst hb
      simp only [putV, if_pos, List.countP_cons]
      omega
    · rw [if_neg hak] at h
      simp only [putV, if_neg hak, List.countP_cons]
      have := ih h
      omega

theorem putV_of_none {l : List (κ × α)} {k : κ} (v : α)
    (h : findV l k = none) : putV l k v = l ++ [(k, v)] := by
  induction l with
  | nil => simp [putV]
  | cons p t ih =>
    obtain ⟨a, b⟩ := p
    rw [findV_cons] at h
    by_cases hak : a = k
    · simp [hak] at h
    · rw [if_neg hak] at h
      simp [putV, if_neg hak, ih h]

theorem countP_delV_found {l : List (κ × α)} {k : κ} {v : α}
    (q : κ × α → Bool) (h : findV l k = some v) :
    (delV l k).countP q + (if q (k, v) then 1 else 0) = l.countP q := by
  induction l with
  | nil => simp [findV] at h
  | cons p t ih =>
    obtain ⟨a, b⟩ := p
    rw [findV_cons] at h
    by_cases hak : a = k
    · subst hak
      rw [if_pos rfl] at h
      have hb : b = v := by injection h
      subst hb
      simp only [delV, if_pos, List.countP_cons]
    · rw [if_neg hak] at h
      simp only [delV, if_neg hak, List.countP_cons]
      have := ih h
      omega

end StoreLemmas

/-- Cancellation of a common left part under string append. -/
theorem string_append_cancel {s a b : String} (h : s ++ a = s ++ b) : a = b := by
  obtain ⟨da⟩ := a
  obtain ⟨db⟩ := b
  obtain ⟨ds⟩ := s
  have : ds ++ da = ds ++ db := congrArg String.data h
  exact congrArg String.mk (List.append_cancel_left this)

/-- `applyUpdateData` only ever writes the seven whitelisted `Data` fields:
`id`, `slug`, `status`, `createdAt` and `publishedAt` come out unchanged,
and `readTime` is exactly the supplied value when one is supplied. -/
theorem applyUpdateData_frame (d : BlogData) (f : UpdateFields) :
    (applyUpdateData d f).id = d.id ∧
    (applyUpdateData d f).slug = d.slug ∧
    (applyUpdateData d f).status = d.status ∧
    (applyUpdateData d f).createdAt = d.createdAt ∧
    (applyUpdateData d f).publishedAt = d.publishedAt ∧
    (applyUpdateData d f).readTime = f.readTime.getD d.readTime := by
  obtain ⟨t, e, c, g, tg, r, u⟩ := f
  cases t <;> cases e <;> cases c <;> cases g <;> cases tg <;> cases r <;> cases u <;>
    simp [applyUpdateData]

/-- When content is supplied, the preprocessed field map carries the
recomputed read time. -/
theorem updateFieldsFinal_readTime (env : Env) (t : Nat) (d : UpdateFields)
    (c : String) (h : d.content = some c) :
    (updateFieldsFinal env t d).readTime = some (max 1 ((pyWords c).length / 200)) := by
  unfold updateFieldsFinal
  dsimp only []
  rw [h]

/-- The preprocessing of `update` never touches the supplied category. -/
theorem updateFieldsFinal_category (env : Env) (t : Nat) (d : UpdateFields) :
    (updateFieldsFinal env t d).category = d.category := by
  cases hc : d.content <;> simp [updateFieldsFinal, hc]

/-! ## Claim theorems -/

/-- C9: for every content string, the readTime stored by `to_item` (and the
one recomputed by `update` whenever content is supplied) equals the number
of whitespace-separated words integer-divided by 200 and floored at 1; in
particular 400 words give readTime 2 and 10 words give readTime 1. -/
theorem read_time_formula :
    (∀ (env : Env) (data : BlogFields) (time uuids : Nat),
      ((to_item env data time uuids).1).Data.readTime
        = max 1 ((pyWords (data.content.getD "")).length / 200)) ∧
    (∀ (env : Env) (st : DB) (id : String) (d : UpdateFields) (c : String),
      d.content = some c →
      ((update env st id d).2).map BlogPost.readTime
        = ((update env st id d).2).map (fun _ => max 1 ((pyWords c).length / 200))) ∧
    readTimeOf (String.intercalate " " (List.replicate 400 "w")) = 2 ∧
    readTimeOf (String.intercalate " " (List.replicate 10 "w")) = 1 := by
  refine ⟨?_, ?_, ?_, ?_⟩
  · intro env data time uuids
    simp [to_item]
  · intro env st id d c h
    simp only [update, get_by_id, update_item]
    cases hf : findV st.posts ("BLOG#" ++ id) with
    | none => simp
    | some item =>
      dsimp only [Option.map]
      simp [from_item, (applyUpdateData_frame item.Data _).2.2.2.2.2,
            updateFieldsFinal_readTime env st.time d c h]
  · set_option maxRecDepth 40000 in decide
  · set_option maxRecDepth 10000 in decide

/-- A concrete environment with a constant clock and a fixed fresh id. -/
def envW : Env := { clock := fun _ => "T", fresh := fun _ => "b1" }

/-- A concrete store holding one post created through `create`. -/
def stW : DB :=
  (create envW emptyDB
    { title := some "Hello World", slug := some "hello", content := some "hi there",
      category := some "Backend" }).1

/-- The 400-word content used in the read-time witness. -/
def contentW : String := String.intercalate " " (List.replicate 400 "w")

set_option maxRecDepth 100000 in
/-- Witness for `read_time_formula`: updating the concretely created post
with 400-word content reports readTime 2. -/
theorem read_time_formula_witness :
    ({ content := some contentW } : UpdateFields).content = some contentW ∧
    ((update envW stW "b1" { content := some contentW }).2).map BlogPost.readTime
      = ((update envW stW "b1" { content := some contentW }).2).map
          (fun _ => max 1 ((pyWords contentW).length / 200)) ∧
    ((update envW stW "b1" { content := some contentW }).2).map BlogPost.readTime
      = some 2 :=
  ⟨rfl, read_time_formula.2.1 envW stW "b1" { content := some contentW } contentW rfl,
   by decide⟩

/-- The claim of C4, as stated: from the return value of the conditional
update alone, a caller can tell a condition that evaluated false on an
existing record apart from an absent record. -/
def rejectedDistinguishesAbsent : Prop :=
  ∀ (s₁ s₂ : List (String × BlogItem)) (k : String) (cond : BlogItem → Bool)
    (mutate : BlogItem → BlogItem),
    (∃ v, findV s₁ k = some v ∧ cond v = false) →
    findV s₂ k = none →
    (update_item s₁ k cond mutate).2 ≠ (update_item s₂ k cond mutate).2

/-- A stored item whose Status is PUBLISHED, built through the code's own
item constructor. -/
def pubItemW : BlogItem := (to_item envW { status := some "PUBLISHED" } 0 0).1

/-- C4 counterexample: `update_item` answers `none` both when the condition
`Status = DRAFT` fails against an existing PUBLISHED record and when the
record is absent, so the two cases are not distinguishable from the return
value. -/
theorem updateItem_rejected_not_distinguishable : ¬ rejectedDistinguishesAbsent := by
  intro h
  exact h [("K", pubItemW)] [] "K" (fun it => it.Status = "DRAFT") (fun it => it)
    ⟨pubItemW, by decide, by decide⟩ (by decide) (by decide)

/-- C4 (amended): the conditional update returns an updated record exactly
when the record exists and the condition holds on it; in every other case —
condition false on an existing record or record absent alike — it returns
the same `none`, and the store is left unchanged.  Success is distinguished
from no-effect, but rejection is not distinguished from absence. -/
theorem updateItem_some_iff {κ α : Type} [DecidableEq κ]
    (store : List (κ × α)) (k : κ) (cond : α → Bool) (mutate : α → α) :
    (((update_item store k cond mutate).2).isSome = true ↔
      ∃ v, findV store k = some v ∧ cond v = true) ∧
    ((update_item store k cond mutate).2 = none →
      (update_item store k cond mutate).1 = store) := by
  unfold update_item
  cases hf : findV store k with
  | none => simp
  | some v =>
    by_cases hc : cond v = true
    · simp [hc]
    · simp only [Bool.not_eq_true] at hc
      simp [hc]

/-- Witness for `updateItem_some_iff` at a concrete store: the update on the
missing key "K" of the empty store is rejected and leaves it unchanged. -/
theorem updateItem_some_iff_witness :
    (update_item ([] : List (String × BlogItem)) "K"
        (fun it => it.Status = "DRAFT") (fun it => it)).2 = none ∧
    (update_item ([] : List (String × BlogItem)) "K"
        (fun it => it.Status = "DRAFT") (fun it => it)).1 = [] :=
  ⟨by decide,
   (updateItem_some_iff ([] : List (String × BlogItem)) "K"
      (fun it => it.Status = "DRAFT") (fun it => it)).2 (by decide)⟩

/-- C1: `publish` succeeds exactly on a stored DRAFT record and `unpublish`
exactly on a stored PUBLISHED one; a second `publish` right after a
successful one returns `none` and rewrites nothing, and both operations on
a missing id return `none` without touching the store. -/
theorem publish_unpublish_conditional :
    (∀ (env : Env) (st : DB) (id : String),
      (((publish env st id).2).isSome = true ↔
        ∃ it, findV st.posts ("BLOG#" ++ id) = some it ∧ it.Status = "DRAFT")) ∧
    (∀ (env : Env) (st : DB) (id : String),
      (((unpublish env st id).2).isSome = true ↔
        ∃ it, findV st.posts ("BLOG#" ++ id) = some it ∧ it.Status = "PUBLISHED")) ∧
    (∀ (env : Env) (st : DB) (id : String) (st₁ : DB) (p : BlogPost),
      publish env st id = (st₁, some p) →
      (publish env st₁ id).2 = none ∧ (publish env st₁ id).1.posts = st₁.posts) ∧
    (∀ (env : Env) (st : DB) (id : String),
      findV st.posts ("BLOG#" ++ id) = none →
      (publish env st id).2 = none ∧ (publish env st id).1.posts = st.posts ∧
      (unpublish env st id).2 = none ∧ (unpublish env st id).1 = st) := by
  refine ⟨?_, ?_, ?_, ?_⟩
  · intro env st id
    simp only [publish, update_item]
    cases hf : findV st.posts ("BLOG#" ++ id) with
    | none => simp
    | some it =>
      by_cases hs : it.Status = "DRAFT" <;> simp [hs]
  · intro env st id
    simp only [unpublish, get_by_id, update_item]
    cases hf : findV st.posts ("BLOG#" ++ id) with
    | none => simp
    | some it =>
      by_cases hs : it.Status = "PUBLISHED" <;> simp [hs]
  · intro env st id st₁ p h
    simp only [publish, update_item] at h
    cases hf : findV st.posts ("BLOG#" ++ id) with
    | none =>
      rw [hf] at h
      simp at h
    | some it =>
      rw [hf] at h
      dsimp only [] at h
      by_cases hs : it.Status = "DRAFT"
      · have hd : decide (it.Status = "DRAFT") = true := by simp [hs]
        rw [if_pos hd] at h
        rw [Prod.ext_iff] at h
        obtain ⟨h1, h2⟩ := h
        subst h1
        simp [publish, update_item, findV_putV]
      · simp [hs] at h
  · intro env st id hf
    refine ⟨?_, ?_, ?_, ?_⟩
    · simp only [publish, update_item]
      rw [hf]
      rfl
    · simp only [publish, update_item]
      rw [hf]
    · simp only [unpublish, get_by_id]
      rw [hf]
      rfl
    · simp only [unpublish, get_by_id]
      rw [hf]
      rfl

/-- An arbitrary post value used only as a `getD` default. -/
def defaultPostW : BlogPost := from_item (to_item envW {} 0 0).1

/-- Incrementing a category aggregate never touches the posts. -/
theorem posts_increment (st : DB) (c : String) :
    (increment_category_count st c).posts = st.posts := rfl

/-- Decrementing a category aggregate never touches the posts. -/
theorem posts_decrement (st : DB) (c : String) :
    (decrement_category_count st c).posts = st.posts := by
  unfold decrement_category_count decrement_category_count_raw
  dsimp only []
  cases findV st.cats ("BLOG#CATEGORY#" ++ c) <;> rfl

/-- Reconciling category aggregates never touches the posts. -/
theorem posts_reconcile (st : DB) (o n : String) :
    (reconcileCategories st o n).posts = st.posts := by
  unfold reconcileCategories
  split_ifs <;> simp [posts_increment, posts_decrement]

/-- The posts slice after a successful `update`: exactly the stored item
with `applyUpdateData` applied to its `Data` under the preprocessed field
map, and the same record returned to the caller. -/
theorem update_posts_shape (env : Env) (st : DB) (id : String) (d : UpdateFields)
    (it : BlogItem) (hf : findV st.posts ("BLOG#" ++ id) = some it) :
    (update env st id d).1.posts
        = putV st.posts ("BLOG#" ++ id)
            { it with Data := applyUpdateData it.Data (updateFieldsFinal env st.time d) }
      ∧ (update env st id d).2
        = some (from_item
            { it with Data := applyUpdateData it.Data (updateFieldsFinal env st.time d) }) := by
  simp only [update, get_by_id, update_item]
  rw [hf]
  dsimp only [Option.map]
  constructor
  · cases hcat : (updateFieldsFinal env st.time d).category with
    | none => simp [hcat]
    | some nc => simp [hcat, posts_reconcile]
  · cases hcat : (updateFieldsFinal env st.time d).category with
    | none => simp [hcat]
    | some nc => simp [hcat]

/-- Witness for `publish_unpublish_conditional`: publishing the concrete
DRAFT post succeeds, a second publish is a no-op that rewrites nothing, and
publish/unpublish of the missing id "zzz" return `none` with the store
untouched. -/
theorem publish_unpublish_conditional_witness :
    (publish envW stW "b1"
      = ((publish envW stW "b1").1,
         some (((publish envW stW "b1").2).getD defaultPostW))) ∧
    ((publish envW (publish envW stW "b1").1 "b1").2 = none ∧
      (publish envW (publish envW stW "b1").1 "b1").1.posts
        = (publish envW stW "b1").1.posts) ∧
    findV stW.posts ("BLOG#" ++ "zzz") = none ∧
    ((publish envW stW "zzz").2 = none ∧ (publish envW stW "zzz").1.posts = stW.posts ∧
      (unpublish envW stW "zzz").2 = none ∧ (unpublish envW stW "zzz").1 = stW) :=
  ⟨by decide,
   publish_unpublish_conditional.2.2.1 envW stW "b1" (publish envW stW "b1").1
     (((publish envW stW "b1").2).getD defaultPostW) (by decide),
   by decide,
   publish_unpublish_conditional.2.2.2 envW stW "zzz" (by decide)⟩

/-- `update` on a missing id leaves the posts untouched. -/
theorem update_frame_missing_aux (env : Env) (st : DB) (id : String)
    (d : UpdateFields) (hf : findV st.posts ("BLOG#" ++ id) = none) :
    (update env st id d).1.posts = st.posts := by
  simp only [update, get_by_id]
  rw [hf]
  rfl

/-- C10: `update` can only modify the whitelisted payload fields; the
record's primary and index keys, entity type, status, id, slug, embedded
status, createdAt and publishedAt are exactly as before the call, every
other record is untouched, and updating a missing id changes nothing. -/
theorem update_frame :
    ∀ (env : Env) (st : DB) (id : String) (d : UpdateFields),
      (findV st.posts ("BLOG#" ++ id) = none →
        (update env st id d).1.posts = st.posts ∧ (update env st id d).2 = none) ∧
      (∀ it, findV st.posts ("BLOG#" ++ id) = some it →
        ∃ it', findV ((update env st id d).1.posts) ("BLOG#" ++ id) = some it' ∧
          it'.PK = it.PK ∧ it'.SK = it.SK ∧ it'.GSI1PK = it.GSI1PK ∧
          it'.GSI1SK = it.GSI1SK ∧ it'.EntityType = it.EntityType ∧
          it'.Status = it.Status ∧ it'.Data.id = it.Data.id ∧
          it'.Data.slug = it.Data.slug ∧ it'.Data.status = it.Data.status ∧
          it'.Data.createdAt = it.Data.createdAt ∧
          it'.Data.publishedAt = it.Data.publishedAt) ∧
      (∀ k, k ≠ "BLOG#" ++ id → findV ((update env st id d).1.posts) k = findV st.posts k) := by
  intro env st id d
  refine ⟨?_, ?_, ?_⟩
  · intro hf
    simp only [update, get_by_id]
    rw [hf]
    exact ⟨rfl, rfl⟩
  · intro it hf
    obtain ⟨hp, _⟩ := update_posts_shape env st id d it hf
    refine ⟨{ it with Data := applyUpdateData it.Data (updateFieldsFinal env st.time d) },
      ?_, rfl, rfl, rfl, rfl, rfl, rfl, ?_, ?_, ?_, ?_, ?_⟩
    · rw [hp, findV_putV, if_pos rfl]
    · exact (applyUpdateData_frame it.Data _).1
    · exact (applyUpdateData_frame it.Data _).2.1
    · exact (applyUpdateData_frame it.Data _).2.2.1
    · exact (applyUpdateData_frame it.Data _).2.2.2.1
    · exact (applyUpdateData_frame it.Data _).2.2.2.2.1
  · intro k hk
    cases hf : findV st.posts ("BLOG#" ++ id) with
    | none =>
      have := (update_frame_missing_aux env st id d hf)
      rw [this]
    | some it =>
      rw [(update_posts_shape env st id d it hf).1, findV_putV,
        if_neg (fun h => hk h.symm)]

/-- The stored item of the concrete post "b1" (recovered via `getD`). -/
def itemW : BlogItem := (findV stW.posts ("BLOG#" ++ "b1")).getD (to_item envW {} 0 0).1

/-- Witness for `update_frame`: updating the missing id "zzz" changes
nothing; updating the concrete post "b1" with a new title keeps its keys,
status and immutable payload fields; the record at another key is
untouched. -/
theorem update_frame_witness :
    (findV stW.posts ("BLOG#" ++ "zzz") = none ∧
      (update envW stW "zzz" {}).1.posts = stW.posts ∧
      (update envW stW "zzz" {}).2 = none) ∧
    (findV stW.posts ("BLOG#" ++ "b1") = some itemW ∧
      ∃ it', findV ((update envW stW "b1" { title := some "New" }).1.posts)
          ("BLOG#" ++ "b1") = some it' ∧
        it'.PK = itemW.PK ∧ it'.SK = itemW.SK ∧ it'.GSI1PK = itemW.GSI1PK ∧
        it'.GSI1SK = itemW.GSI1SK ∧ it'.EntityType = itemW.EntityType ∧
        it'.Status = itemW.Status ∧ it'.Data.id = itemW.Data.id ∧
        it'.Data.slug = itemW.Data.slug ∧ it'.Data.status = itemW.Data.status ∧
        it'.Data.createdAt = itemW.Data.createdAt ∧
        it'.Data.publishedAt = itemW.Data.publishedAt) ∧
    ("OTHER" ≠ "BLOG#" ++ "b1" ∧
      findV ((update envW stW "b1" { title := some "New" }).1.posts) "OTHER"
        = findV stW.posts "OTHER") :=
  ⟨⟨by decide, (update_frame envW stW "zzz" {}).1 (by decide)⟩,
   ⟨by decide, (update_frame envW stW "b1" { title := some "New" }).2.1 itemW (by decide)⟩,
   ⟨by decide, (update_frame envW stW "b1" { title := some "New" }).2.2 "OTHER" (by decide)⟩⟩

/-- `to_item` keys the item by the id it stores in the payload. -/
theorem to_item_PK_id (env : Env) (data : BlogFields) (t u : Nat) :
    (to_item env data t u).1.PK = "BLOG#" ++ (to_item env data t u).1.Data.id := by
  simp only [to_item]

/-- `to_item` on a field map whose status/createdAt/updatedAt were set to
truthy values stores exactly those values. -/
theorem to_item_fields (env : Env) (data : BlogFields) (t u : Nat)
    (st ca ua : String)
    (hst : data.status = some st) (hca : data.createdAt = some ca)
    (hua : data.updatedAt = some ua) (hcane : ca ≠ "") (huane : ua ≠ "") :
    (to_item env data t u).1.Status = st ∧
    (to_item env data t u).1.Data.createdAt = ca ∧
    (to_item env data t u).1.Data.updatedAt = ua := by
  simp only [to_item, hst, hca, hua, truthy]
  simp [hcane, huane]

/-- A strictly changing clock: reading `n` returns `"T<n>"`. -/
def envC : Env := { clock := fun n => "T" ++ decRepr n, fresh := fun _ => "u1" }

/-- C6 counterexample: under a clock whose successive readings differ (the
code takes two separate `datetime.now()` readings for `createdAt` and
`updatedAt`), `create` followed by `get_by_id` yields a DRAFT record whose
`createdAt` and `updatedAt` are NOT equal. -/
theorem create_timestamps_differ :
    ((create envC emptyDB {}).2).status = "DRAFT" ∧
    get_by_id (create envC emptyDB {}).1 ((create envC emptyDB {}).2).id
      = some (create envC emptyDB {}).2 ∧
    ((create envC emptyDB {}).2).createdAt ≠ ((create envC emptyDB {}).2).updatedAt := by
  decide

/-- C6 (amended): `create` followed by `get_by_id` on the new id returns the
created record, its status is DRAFT, and its `createdAt`/`updatedAt` are
the two successive clock readings taken during `create` — so under a
monotone clock `createdAt ≤ updatedAt`, with equality only when the two
readings coincide (the code does not guarantee equality). -/
theorem create_draft_and_ordered_timestamps :
    ∀ (env : Env) (st : DB) (data : BlogFields),
      (∀ n, env.clock n ≠ "") →
      (∀ i j, i ≤ j → strLexLt (env.clock j) (env.clock i) = false) →
      ((create env st data).2).status = "DRAFT" ∧
      get_by_id (create env st data).1 ((create env st data).2).id
        = some (create env st data).2 ∧
      ((create env st data).2).createdAt = env.clock st.time ∧
      ((create env st data).2).updatedAt = env.clock (st.time + 1) ∧
      strLexLt ((create env st data).2).updatedAt ((create env st data).2).createdAt
        = false := by
  intro env st data hne hmono
  refine ⟨?_, ?_, ?_, ?_, ?_⟩
  · simp only [create, from_item]
    rw [(to_item_fields _ _ _ _ _ _ _ rfl rfl rfl (hne _) (hne _)).1]
  · simp only [create, get_by_id, from_item]
    split_ifs <;>
      simp [posts_increment, findV_putV, to_item_PK_id, from_item]
  · simp only [create, from_item]
    rw [(to_item_fields _ _ _ _ _ _ _ rfl rfl rfl (hne _) (hne _)).2.1]
  · simp only [create, from_item]
    rw [(to_item_fields _ _ _ _ _ _ _ rfl rfl rfl (hne _) (hne _)).2.2]
  · simp only [create, from_item]
    rw [(to_item_fields _ _ _ _ _ _ _ rfl rfl rfl (hne _) (hne _)).2.2,
      (to_item_fields _ _ _ _ _ _ _ rfl rfl rfl (hne _) (hne _)).2.1]
    exact hmono st.time (st.time + 1) (Nat.le_succ _)

/-- Witness for `create_draft_and_ordered_timestamps`: under the constant
clock environment the created record is DRAFT with equal (hence ordered)
timestamps. -/
theorem create_draft_and_ordered_timestamps_witness :
    ((create envW emptyDB {}).2).status = "DRAFT" ∧
    get_by_id (create envW emptyDB {}).1 ((create envW emptyDB {}).2).id
      = some (create envW emptyDB {}).2 ∧
    ((create envW emptyDB {}).2).createdAt = envW.clock emptyDB.time ∧
    ((create envW emptyDB {}).2).updatedAt = envW.clock (emptyDB.time + 1) ∧
    strLexLt ((create envW emptyDB {}).2).updatedAt
      ((create envW emptyDB {}).2).createdAt = false :=
  create_draft_and_ordered_timestamps envW emptyDB {}
    (fun _ => (by decide : ("T" : String) ≠ ""))
    (fun _ _ _ => (by decide : strLexLt "T" "T" = false))

/-- Membership through `insertLe`. -/
theorem mem_insertLe {α : Type} {le : α → α → Bool} {x y : α} {l : List α}
    (h : x ∈ insertLe le y l) : x = y ∨ x ∈ l := by
  induction l with
  | nil => simpa [insertLe] using h
  | cons z t ih =>
    simp only [insertLe] at h
    split at h
    · rw [List.mem_cons] at h
      rcases h with h | h
      · exact Or.inl h
      · exact Or.inr h
    · rw [List.mem_cons] at h
      rcases h with h | h
      · exact Or.inr (h ▸ List.mem_cons_self _ _)
      · rcases ih h with h' | h'
        · exact Or.inl h'
        · exact Or.inr (List.mem_cons_of_mem _ h')

/-- Sorting permutes, so membership is preserved. -/
theorem mem_sortLe {α : Type} {le : α → α → Bool} {x : α} {l : List α}
    (h : x ∈ sortLe le l) : x ∈ l := by
  induction l with
  | nil => simp [sortLe] at h
  | cons z t ih =>
    simp only [sortLe] at h
    rcases mem_insertLe h with h' | h'
    · exact h' ▸ List.mem_cons_self _ _
    · exact List.mem_cons_of_mem _ (ih h')

/-- Everything in the sorted, filtered projection of the posts is a stored
item satisfying the key condition. -/
theorem mem_sorted_filtered {posts : List (String × BlogItem)}
    {keyCond : BlogItem → Bool} {le : BlogItem → BlogItem → Bool} {it : BlogItem}
    (h : it ∈ sortLe le ((posts.map Prod.snd).filter keyCond)) :
    (∃ k, (k, it) ∈ posts) ∧ keyCond it = true := by
  have h3 := mem_sortLe h
  rw [List.mem_filter] at h3
  obtain ⟨hmem, hkc⟩ := h3
  rw [List.mem_map] at hmem
  obtain ⟨p, hp, hpe⟩ := hmem
  refine ⟨⟨p.1, ?_⟩, hkc⟩
  rw [← hpe]
  rwa [Prod.mk.eta]

/-- Everything a GSI1 query returns is a stored item satisfying the key
condition. -/
theorem mem_queryBlogGSI1 {posts : List (String × BlogItem)}
    {keyCond : BlogItem → Bool} {sf : Bool} {lim : Nat} {esk : Option String}
    {it : BlogItem} (h : it ∈ queryBlogGSI1 posts keyCond sf lim esk) :
    (∃ k, (k, it) ∈ posts) ∧ keyCond it = true := by
  cases esk with
  | none =>
    simp only [queryBlogGSI1] at h
    exact mem_sorted_filtered ((List.take_sublist _ _).mem h)
  | some k =>
    simp only [queryBlogGSI1] at h
    exact mem_sorted_filtered
      ((List.dropWhile_sublist _).mem ((List.take_sublist _ _).mem h))

/-- The status/index-key consistency invariant: the status embedded in a
stored item's index partition key always equals its top-level status. -/
def StatusIndexInv (st : DB) : Prop :=
  ∀ p ∈ st.posts, p.2.GSI1PK = "BLOG#STATUS#" ++ p.2.Status

/-- `to_item` builds the index partition key from the stored status. -/
theorem to_item_GSI1PK (env : Env) (data : BlogFields) (t u : Nat) :
    (to_item env data t u).1.GSI1PK = "BLOG#STATUS#" ++ (to_item env data t u).1.Status := by
  simp only [to_item]

/-- The posts written by `create` are the old ones plus the freshly built
item. -/
theorem create_posts (env : Env) (st : DB) (data : BlogFields) :
    (create env st data).1.posts
      = putV st.posts ((to_item env (createData env st data) (st.time + 2) st.uuids).1).PK
          ((to_item env (createData env st data) (st.time + 2) st.uuids).1) := by
  simp only [create]
  split_ifs <;> simp [posts_increment]

/-- Every repository operation preserves the status/index consistency. -/
theorem statusInv_applyOp (env : Env) (st : DB) (op : Op)
    (h : StatusIndexInv st) : StatusIndexInv (applyOp env st op) := by
  cases op with
  | create d =>
    intro p hp
    rw [show applyOp env st (Op.create d) = (create env st d).1 from rfl,
      create_posts env st d] at hp
    rcases mem_putV hp with h' | h'
    · rw [h']
      exact to_item_GSI1PK env (createData env st d) _ _
    · exact h p h'
  | update i d =>
    intro p hp
    cases hfv : findV st.posts ("BLOG#" ++ i) with
    | none =>
      rw [show applyOp env st (Op.update i d) = (update env st i d).1 from rfl,
        ((update_frame env st i d).1 hfv).1] at hp
      exact h p hp
    | some it =>
      rw [show applyOp env st (Op.update i d) = (update env st i d).1 from rfl,
        (update_posts_shape env st i d it hfv).1] at hp
      rcases mem_putV hp with h' | h'
      · rw [h']
        exact h ("BLOG#" ++ i, it) (findV_mem hfv)
      · exact h p h'
  | publish i =>
    intro p hp
    simp only [applyOp, publish, update_item] at hp
    cases hfv : findV st.posts ("BLOG#" ++ i) with
    | none =>
      rw [hfv] at hp
      exact h p hp
    | some it =>
      rw [hfv] at hp
      dsimp only [] at hp
      by_cases hs : it.Status = "DRAFT"
      · rw [if_pos (by simp [hs] : decide (it.Status = "DRAFT") = true)] at hp
        rcases mem_putV hp with h' | h'
        · rw [h']
          rfl
        · exact h p h'
      · rw [if_neg (by simp [hs] : ¬ decide (it.Status = "DRAFT") = true)] at hp
        exact h p hp
  | unpublish i =>
    intro p hp
    simp only [applyOp, unpublish, get_by_id, update_item] at hp
    cases hfv : findV st.posts ("BLOG#" ++ i) with
    | none =>
      rw [hfv] at hp
      exact h p hp
    | some it =>
      rw [hfv] at hp
      dsimp only [Option.map] at hp
      by_cases hs : it.Status = "PUBLISHED"
      · rw [if_pos (by simp [hs] : decide (it.Status = "PUBLISHED") = true)] at hp
        rcases mem_putV hp with h' | h'
        · rw [h']
          rfl
        · exact h p h'
      · rw [if_neg (by simp [hs] : ¬ decide (it.Status = "PUBLISHED") = true)] at hp
        exact h p hp
  | delete i =>
    intro p hp
    simp only [applyOp, delete, get_by_id] at hp
    cases hfv : findV st.posts ("BLOG#" ++ i) with
    | none =>
      rw [hfv] at hp
      exact h p hp
    | some it =>
      rw [hfv] at hp
      dsimp only [Option.map] at hp
      simp only [apply_ite DB.posts, posts_decrement, ite_self] at hp
      exact h p (mem_delV hp)

/-- Consistency holds in every state reachable from the empty table. -/
theorem statusInv_applyOps (env : Env) (ops : List Op) :
    StatusIndexInv (applyOps env ops) := by
  have main : ∀ (l : List Op) (st : DB), StatusIndexInv st →
      StatusIndexInv (l.foldl (applyOp env) st) := by
    intro l
    induction l with
    | nil => intro st h; exact h
    | cons o t ih =>
      intro st h
      exact ih _ (statusInv_applyOp env st o h)
  exact main ops emptyDB (fun p hp => absurd hp (List.not_mem_nil p))

/-- C2: in every state reachable by create/update/publish/unpublish/delete
from the empty table, the status stored in the primary record and the
status embedded in its GSI1 partition key are equal, and `list_posts` with
a status filter only returns posts carrying exactly that status. -/
theorem status_index_consistency :
    (∀ (env : Env) (ops : List Op) (p : String × BlogItem),
      p ∈ (applyOps env ops).posts →
      p.2.GSI1PK = "BLOG#STATUS#" ++ p.2.Status) ∧
    (∀ (env : Env) (ops : List Op) (s : String) (cat : Option String)
      (lim : Nat) (esk : Option String) (post : BlogPost),
      post ∈ (list_posts (applyOps env ops) (some s) cat lim esk).items →
      post.status = s) := by
  constructor
  · intro env ops p hp
    exact statusInv_applyOps env ops p hp
  · intro env ops s cat lim esk post hpost
    simp only [list_posts] at hpost
    rw [List.mem_map] at hpost
    obtain ⟨it, hit, hfe⟩ := hpost
    have hq : it ∈ queryBlogGSI1 (applyOps env ops).posts
        (fun itx => itx.GSI1PK = "BLOG#STATUS#" ++ s) false lim esk := by
      cases cat with
      | none => exact hit
      | some c => exact (List.mem_filter.mp hit).1
    obtain ⟨⟨k, hk⟩, hkc⟩ := mem_queryBlogGSI1 hq
    have hinv := statusInv_applyOps env ops (k, it) hk
    have : "BLOG#STATUS#" ++ it.Status = "BLOG#STATUS#" ++ s := by
      rw [← hinv]
      simpa using hkc
    have hstat : it.Status = s := string_append_cancel this
    rw [← hfe]
    simpa [from_item] using hstat

/-- A concrete history: create a post (id "b1") and publish it. -/
def opsW : List Op :=
  [Op.create { title := some "Hello", slug := some "hello", category := some "Backend" },
   Op.publish "b1"]

/-- The state reached by the concrete history. -/
def stOps : DB := applyOps envW opsW

/-- Witness for `status_index_consistency`: in the state after
create-then-publish, the stored entry's index key embeds its own status,
and the one post listed under PUBLISHED carries status PUBLISHED. -/
theorem status_index_consistency_witness :
    (stOps.posts.getD 0 ("X", pubItemW) ∈ stOps.posts ∧
      (stOps.posts.getD 0 ("X", pubItemW)).2.GSI1PK
        = "BLOG#STATUS#" ++ (stOps.posts.getD 0 ("X", pubItemW)).2.Status) ∧
    ((list_posts stOps (some "PUBLISHED") none 20 none).items.getD 0 defaultPostW
        ∈ (list_posts stOps (some "PUBLISHED") none 20 none).items ∧
      ((list_posts stOps (some "PUBLISHED") none 20 none).items.getD 0
          defaultPostW).status = "PUBLISHED") :=
  ⟨⟨by decide, status_index_consistency.1 envW opsW _ (by decide)⟩,
   ⟨by decide,
    status_index_consistency.2 envW opsW "PUBLISHED" none 20 none _ (by decide)⟩⟩

/-- Number of stored posts carrying a given category. -/
def countCat (posts : List (String × BlogItem)) (c : String) : Nat :=
  posts.countP (fun p => p.2.Data.category = c)

/-- The category-aggregate well-formedness invariant: every stored post
with a (truthy) category has an aggregate record, aggregate records only
exist for non-empty categories, each aggregate's count dominates the number
of posts carrying its category, and aggregate keys are unique. -/
def CatInv (st : DB) : Prop :=
  (∀ p ∈ st.posts, p.2.Data.category ≠ "" →
    (findV st.cats ("BLOG#CATEGORY#" ++ p.2.Data.category)).isSome = true) ∧
  (∀ q ∈ st.cats, ∃ c, c ≠ "" ∧ q.1 = "BLOG#CATEGORY#" ++ c) ∧
  (∀ c, c ≠ "" → ∀ r, findV st.cats ("BLOG#CATEGORY#" ++ c) = some r →
    (countCat st.posts c : Int) ≤ r.count) ∧
  (st.cats.map Prod.fst).Nodup

/-- With unique keys, every stored entry is what lookup finds. -/
theorem nodup_mem_findV {κ α : Type} [DecidableEq κ] {l : List (κ × α)}
    (hnd : (l.map Prod.fst).Nodup) {q : κ × α} (hq : q ∈ l) :
    findV l q.1 = some q.2 := by
  induction l with
  | nil => cases hq
  | cons p t ih =>
    obtain ⟨a, b⟩ := p
    rw [List.map_cons, List.nodup_cons] at hnd
    rw [List.mem_cons] at hq
    rcases hq with hq | hq
    · rw [hq, findV_cons, if_pos rfl]
    · rw [findV_cons, if_neg, ih hnd.2 hq]
      intro hak
      apply hnd.1
      rw [hak]
      exact List.mem_map.mpr ⟨q, hq, rfl⟩

/-- Keys after an upsert are the upserted key or old keys. -/
theorem keys_mem_putV {κ α : Type} [DecidableEq κ] {l : List (κ × α)}
    {k : κ} {v : α} {x : κ} (h : x ∈ (putV l k v).map Prod.fst) :
    x = k ∨ x ∈ l.map Prod.fst := by
  rw [List.mem_map] at h
  obtain ⟨q, hq, hx⟩ := h
  rcases mem_putV hq with h' | h'
  · exact Or.inl (hx ▸ h' ▸ rfl)
  · exact Or.inr (hx ▸ List.mem_map_of_mem Prod.fst h')

/-- Upserting preserves key uniqueness. -/
theorem nodup_keys_putV {κ α : Type} [DecidableEq κ] {l : List (κ × α)}
    (hnd : (l.map Prod.fst).Nodup) (k : κ) (v : α) :
    ((putV l k v).map Prod.fst).Nodup := by
  induction l with
  | nil => simp [putV]
  | cons p t ih =>
    obtain ⟨a, b⟩ := p
    rw [List.map_cons, List.nodup_cons] at hnd
    by_cases hak : a = k
    · subst hak
      simp only [putV, if_pos, List.map_cons, List.nodup_cons]
      exact hnd
    · simp only [putV, if_neg hak, List.map_cons, List.nodup_cons]
      refine ⟨?_, ih hnd.2⟩
      intro hmem
      rcases keys_mem_putV hmem with h' | h'
      · exact hak h'
      · exact hnd.1 h'

/-- A positive per-category post count exhibits a post with that category. -/
theorem countCat_pos {posts : List (String × BlogItem)} {c : String}
    (h : 0 < countCat posts c) : ∃ p ∈ posts, p.2.Data.category = c := by
  rw [countCat, List.countP_pos_iff] at h
  obtain ⟨p, hp, hc⟩ := h
  exact ⟨p, hp, by simpa using hc⟩

/-- The cats slice written by `_increment_category_count`. -/
theorem increment_cats (st : DB) (c : String) :
    (increment_category_count st c).cats
      = putV st.cats ("BLOG#CATEGORY#" ++ c)
          { category := ((findV st.cats ("BLOG#CATEGORY#" ++ c)).getD
              { category := c, count := 0 }).category
            count := ((findV st.cats ("BLOG#CATEGORY#" ++ c)).getD
              { category := c, count := 0 }).count + 1 } := rfl

/-- The cats slice written by `_decrement_category_count` when the
aggregate record exists. -/
theorem decrement_cats_found (st : DB) (c : String) (d : CatData)
    (h : findV st.cats ("BLOG#CATEGORY#" ++ c) = some d) :
    (decrement_category_count st c).cats
      = putV st.cats ("BLOG#CATEGORY#" ++ c)
          { category := d.category, count := d.count - 1 } := by
  unfold decrement_category_count decrement_category_count_raw
  dsimp only []
  rw [h]

/-- A failing decrement (missing aggregate record) is swallowed: the state
is returned unchanged. -/
theorem decrement_missing (st : DB) (c : String)
    (h : findV st.cats ("BLOG#CATEGORY#" ++ c) = none) :
    decrement_category_count st c = st := by
  unfold decrement_category_count decrement_category_count_raw
  dsimp only []
  rw [h]

/-- Count change when a stored post is replaced. -/
theorem countCat_putV_found {posts : List (String × BlogItem)} {y : String}
    {o : BlogItem} (it : BlogItem) (c : String)
    (h : findV posts y = some o) :
    countCat (putV posts y it) c + (if o.Data.category = c then 1 else 0)
      = countCat posts c + (if it.Data.category = c then 1 else 0) := by
  have := countP_putV_found (v := o) it
    (fun p => p.2.Data.category = c) h
  simpa [countCat] using this

/-- Count change when a fresh post is appended. -/
theorem countCat_putV_none {posts : List (String × BlogItem)} {pk : String}
    (it : BlogItem) (c : String) (h : findV posts pk = none) :
    countCat (putV posts pk it) c
      = countCat posts c + (if it.Data.category = c then 1 else 0) := by
  rw [countCat, putV_of_none it h, List.countP_append]
  simp only [countCat, List.countP_cons, List.countP_nil, Nat.zero_add]
  by_cases hc : it.Data.category = c <;> simp [hc]

/-- Count change when a stored post is deleted. -/
theorem countCat_delV_found {posts : List (String × BlogItem)} {y : String}
    {o : BlogItem} (c : String) (h : findV posts y = some o) :
    countCat (delV posts y) c + (if o.Data.category = c then 1 else 0)
      = countCat posts c := by
  have := countP_delV_found (v := o) (fun p => p.2.Data.category = c) h
  simpa [countCat] using this

/-- `to_item` stores the category read from the field map. -/
theorem to_item_category (env : Env) (data : BlogFields) (t u : Nat) :
    ((to_item env data t u).1).Data.category = data.category.getD "" := by
  simp only [to_item]

/-- Category names are recoverable from aggregate keys. -/
theorem catKey_inj {a b : String} (h : "BLOG#CATEGORY#" ++ a = "BLOG#CATEGORY#" ++ b) :
    a = b := string_append_cancel h

/-- Master lemma: replacing the posts with `posts'` and then incrementing
the aggregate of the non-empty category `cN` preserves the invariant,
provided the new posts only introduce category `cN` beyond the covered
ones and the new counts fit under the incremented bounds. -/
theorem catInv_posts_increment (st : DB) (posts' : List (String × BlogItem))
    (t u : Nat) (cN : String) (hcN : cN ≠ "")
    (hA : ∀ p ∈ posts', p.2.Data.category ≠ "" → p.2.Data.category = cN ∨
          (findV st.cats ("BLOG#CATEGORY#" ++ p.2.Data.category)).isSome = true)
    (hC : ∀ c, c ≠ "" → ∀ r, findV st.cats ("BLOG#CATEGORY#" ++ c) = some r →
          (countCat posts' c : Int) ≤ (if c = cN then r.count + 1 else r.count))
    (hCnew : findV st.cats ("BLOG#CATEGORY#" ++ cN) = none →
          (countCat posts' cN : Int) ≤ 1)
    (hB : ∀ q ∈ st.cats, ∃ c, c ≠ "" ∧ q.1 = "BLOG#CATEGORY#" ++ c)
    (hD : (st.cats.map Prod.fst).Nodup) :
    CatInv (increment_category_count { st with posts := posts', time := t, uuids := u } cN) := by
  refine ⟨?_, ?_, ?_, ?_⟩
  · intro p hp hcp
    have hposts : (increment_category_count
        { st with posts := posts', time := t, uuids := u } cN).posts = posts' := rfl
    rw [hposts] at hp
    rw [show (increment_category_count
        { st with posts := posts', time := t, uuids := u } cN).cats
      = (increment_category_count st cN).cats from rfl, increment_cats, findV_putV]
    by_cases hkey : "BLOG#CATEGORY#" ++ cN = "BLOG#CATEGORY#" ++ p.2.Data.category
    · rw [if_pos hkey]
      rfl
    · rw [if_neg hkey]
      rcases hA p hp hcp with h' | h'
      · exact absurd (h' ▸ rfl) hkey
      · exact h'
  · intro q hq
    rw [show (increment_category_count
        { st with posts := posts', time := t, uuids := u } cN).cats
      = (increment_category_count st cN).cats from rfl, increment_cats] at hq
    rcases mem_putV hq with h' | h'
    · exact ⟨cN, hcN, h' ▸ rfl⟩
    · exact hB q h'
  · intro c hc r hr
    have hposts : (increment_category_count
        { st with posts := posts', time := t, uuids := u } cN).posts = posts' := rfl
    rw [hposts]
    rw [show (increment_category_count
        { st with posts := posts', time := t, uuids := u } cN).cats
      = (increment_category_count st cN).cats from rfl, increment_cats, findV_putV] at hr
    by_cases hkey : "BLOG#CATEGORY#" ++ cN = "BLOG#CATEGORY#" ++ c
    · have hcc : cN = c := catKey_inj hkey
      rw [if_pos hkey] at hr
      cases hr0 : findV st.cats ("BLOG#CATEGORY#" ++ cN) with
      | none =>
        have h1 := hCnew hr0
        rw [hr0] at hr
        have : r = { category := cN, count := 1 } := by
          rw [← Option.some_inj]
          rw [← hr]
          rfl
        rw [this]
        rw [← hcc]
        simpa using h1
      | some cur =>
        have h1 := hC c hc _ (hcc ▸ hr0)
        rw [hr0] at hr
        have : r = { category := cur.category, count := cur.count + 1 } := by
          rw [← Option.some_inj, ← hr]
          rfl
        rw [this]
        rw [if_pos hcc.symm] at h1
        exact h1
    · rw [if_neg hkey] at hr
      have h1 := hC c hc r hr
      rw [if_neg (fun hcc : c = cN => hkey (hcc ▸ rfl))] at h1
      exact h1
  · rw [show (increment_category_count
        { st with posts := posts', time := t, uuids := u } cN).cats
      = (increment_category_count st cN).cats from rfl, increment_cats]
    exact nodup_keys_putV hD _ _

/-- Master lemma: replacing the posts without touching the aggregates
preserves the invariant, provided the new posts stay covered and counted. -/
theorem catInv_posts_only (st : DB) (posts' : List (String × BlogItem))
    (t u : Nat)
    (hA : ∀ p ∈ posts', p.2.Data.category ≠ "" →
          (findV st.cats ("BLOG#CATEGORY#" ++ p.2.Data.category)).isSome = true)
    (hC : ∀ c, c ≠ "" → ∀ r, findV st.cats ("BLOG#CATEGORY#" ++ c) = some r →
          (countCat posts' c : Int) ≤ r.count)
    (hB : ∀ q ∈ st.cats, ∃ c, c ≠ "" ∧ q.1 = "BLOG#CATEGORY#" ++ c)
    (hD : (st.cats.map Prod.fst).Nodup) :
    CatInv { st with posts := posts', time := t, uuids := u } :=
  ⟨hA, hB, hC, hD⟩

/-- Master lemma: replacing the posts and then decrementing the (existing)
aggregate of the non-empty category `cO` preserves the invariant, provided
the new counts fit under the decremented bounds. -/
theorem catInv_posts_decrement (st : DB) (posts' : List (String × BlogItem))
    (t u : Nat) (cO : String) (hcO : cO ≠ "") (dRec : CatData)
    (hfound : findV st.cats ("BLOG#CATEGORY#" ++ cO) = some dRec)
    (hA : ∀ p ∈ posts', p.2.Data.category ≠ "" →
          (findV st.cats ("BLOG#CATEGORY#" ++ p.2.Data.category)).isSome = true)
    (hC : ∀ c, c ≠ "" → ∀ r, findV st.cats ("BLOG#CATEGORY#" ++ c) = some r →
          (countCat posts' c : Int) ≤ (if c = cO then r.count - 1 else r.count))
    (hB : ∀ q ∈ st.cats, ∃ c, c ≠ "" ∧ q.1 = "BLOG#CATEGORY#" ++ c)
    (hD : (st.cats.map Prod.fst).Nodup) :
    CatInv (decrement_category_count
      { st with posts := posts', time := t, uuids := u } cO) := by
  have hcats : (decrement_category_count
      { st with posts := posts', time := t, uuids := u } cO).cats
      = putV st.cats ("BLOG#CATEGORY#" ++ cO)
          { category := dRec.category, count := dRec.count - 1 } :=
    decrement_cats_found { st with posts := posts', time := t, uuids := u } cO dRec hfound
  have hposts : (decrement_category_count
      { st with posts := posts', time := t, uuids := u } cO).posts = posts' := by
    rw [posts_decrement]
  refine ⟨?_, ?_, ?_, ?_⟩
  · intro p hp hcp
    rw [hposts] at hp
    rw [hcats, findV_putV]
    by_cases hkey : "BLOG#CATEGORY#" ++ cO = "BLOG#CATEGORY#" ++ p.2.Data.category
    · rw [if_pos hkey]
      rfl
    · rw [if_neg hkey]
      exact hA p hp hcp
  · intro q hq
    rw [hcats] at hq
    rcases mem_putV hq with h' | h'
    · exact ⟨cO, hcO, h' ▸ rfl⟩
    · exact hB q h'
  · intro c hc r hr
    rw [hposts]
    rw [hcats, findV_putV] at hr
    by_cases hkey : "BLOG#CATEGORY#" ++ cO = "BLOG#CATEGORY#" ++ c
    · have hcc : cO = c := catKey_inj hkey
      rw [if_pos hkey] at hr
      have hrv : r = { category := dRec.category, count := dRec.count - 1 } := by
        rw [← Option.some_inj, ← hr]
      rw [hrv]
      have h1 := hC c hc dRec (hcc ▸ hfound)
      rw [if_pos hcc.symm] at h1
      exact h1
    · rw [if_neg hkey] at hr
      have h1 := hC c hc r hr
      rw [if_neg (fun hcc : c = cO => hkey (hcc ▸ rfl))] at h1
      exact h1
  · rw [hcats]
    exact nodup_keys_putV hD _ _

/-- The result state of `create`, written out. -/
theorem create_final (env : Env) (st : DB) (data : BlogFields) :
    (create env st data).1
      = (if truthy (createData env st data).category = true then
          increment_category_count
            { st with
              posts := putV st.posts
                ((to_item env (createData env st data) (st.time + 2) st.uuids).1).PK
                ((to_item env (createData env st data) (st.time + 2) st.uuids).1)
              time := (to_item env (createData env st data) (st.time + 2) st.uuids).2.1
              uuids := (to_item env (createData env st data) (st.time + 2) st.uuids).2.2 }
            ((createData env st data).category.getD "")
        else
          { st with
            posts := putV st.posts
              ((to_item env (createData env st data) (st.time + 2) st.uuids).1).PK
              ((to_item env (createData env st data) (st.time + 2) st.uuids).1)
            time := (to_item env (createData env st data) (st.time + 2) st.uuids).2.1
            uuids := (to_item env (createData env st data) (st.time + 2) st.uuids).2.2 }) := rfl

/-- `create` preserves the category invariant. -/
theorem catInv_create (env : Env) (st : DB) (d : BlogFields) (h : CatInv st) :
    CatInv (create env st d).1 := by
  obtain ⟨hA, hB, hC, hD⟩ := h
  rw [create_final]
  have hitemcat : ((to_item env (createData env st d) (st.time + 2) st.uuids).1).Data.category
      = (createData env st d).category.getD "" := to_item_category _ _ _ _
  by_cases htr : truthy (createData env st d).category = true
  · rw [if_pos htr]
    have hcN : (createData env st d).category.getD "" ≠ "" := by
      cases hDc : (createData env st d).category with
      | none => rw [hDc] at htr; simp [truthy] at htr
      | some cs =>
        rw [hDc] at htr
        simp only [truthy] at htr
        simpa using htr
    apply catInv_posts_increment _ _ _ _ _ hcN _ _ _ hB hD
    · intro p hp hcp
      rcases mem_putV hp with h' | h'
      · left
        rw [h', hitemcat]
      · right
        exact hA p h' hcp
    · intro c hc r hr
      have hbase := hC c hc r hr
      cases hold : findV st.posts ((to_item env (createData env st d) (st.time + 2) st.uuids).1).PK with
      | none =>
        rw [countCat_putV_none _ c hold]
        by_cases hcc : c = (createData env st d).category.getD ""
        · rw [if_pos hcc]
          rw [hitemcat]
          rw [if_pos hcc.symm]
          push_cast
          omega
        · rw [if_neg hcc]
          rw [hitemcat, if_neg (fun hh : (createData env st d).category.getD "" = c => hcc hh.symm)]
          push_cast
          omega
      | some old =>
        have heq := countCat_putV_found (o := old)
          ((to_item env (createData env st d) (st.time + 2) st.uuids).1) c hold
        by_cases hcc : c = (createData env st d).category.getD ""
        · rw [if_pos hcc]
          rw [hitemcat] at heq
          rw [if_pos hcc.symm] at heq
          by_cases hoc : old.Data.category = c
          · rw [if_pos hoc] at heq
            push_cast
            omega
          · rw [if_neg hoc] at heq
            push_cast
            omega
        · rw [if_neg hcc]
          rw [hitemcat, if_neg (fun hh : (createData env st d).category.getD "" = c => hcc hh.symm)] at heq
          by_cases hoc : old.Data.category = c
          · rw [if_pos hoc] at heq
            push_cast
            omega
          · rw [if_neg hoc] at heq
            push_cast
            omega
    · intro hnone
      have hzero : countCat st.posts ((createData env st d).category.getD "") = 0 := by
        by_contra hpos
        obtain ⟨p, hp, hpc⟩ := countCat_pos (Nat.pos_of_ne_zero hpos)
        have := hA p hp (hpc ▸ hcN)
        rw [hpc, hnone] at this
        simp at this
      cases hold : findV st.posts ((to_item env (createData env st d) (st.time + 2) st.uuids).1).PK with
      | none =>
        rw [countCat_putV_none _ _ hold, hzero]
        split <;> simp
      | some old =>
        have heq := countCat_putV_found (o := old)
          ((to_item env (createData env st d) (st.time + 2) st.uuids).1)
          ((createData env st d).category.getD "") hold
        rw [hzero] at heq
        by_cases hoc : old.Data.category = (createData env st d).category.getD "" <;>
          [rw [if_pos hoc] at heq; rw [if_neg hoc] at heq] <;>
        · split at heq <;> push_cast <;> omega
  · rw [if_neg htr]
    have hcat0 : ((to_item env (createData env st d) (st.time + 2) st.uuids).1).Data.category = "" := by
      rw [hitemcat]
      cases hDc : (createData env st d).category with
      | none => rfl
      | some cs =>
        rw [hDc] at htr
        simp only [truthy] at htr
        simpa using htr
    apply catInv_posts_only _ _ _ _ _ _ hB hD
    · intro p hp hcp
      rcases mem_putV hp with h' | h'
      · exact absurd (h' ▸ hcat0) hcp
      · exact hA p h' hcp
    · intro c hc r hr
      have hbase := hC c hc r hr
      cases hold : findV st.posts ((to_item env (createData env st d) (st.time + 2) st.uuids).1).PK with
      | none =>
        rw [countCat_putV_none _ c hold, hcat0,
          if_neg (fun hh : ("" : String) = c => hc hh.symm)]
        push_cast
        omega
      | some old =>
        have heq := countCat_putV_found (o := old)
          ((to_item env (createData env st d) (st.time + 2) st.uuids).1) c hold
        rw [hcat0, if_neg (fun hh : ("" : String) = c => hc hh.symm)] at heq
        by_cases hoc : old.Data.category = c <;>
          [rw [if_pos hoc] at heq; rw [if_neg hoc] at heq] <;>
        · push_cast
          omega

/-- `delete` preserves the category invariant. -/
theorem catInv_delete (st : DB) (i : String) (h : CatInv st) :
    CatInv (delete st i).1 := by
  obtain ⟨hA, hB, hC, hD⟩ := h
  simp only [delete, get_by_id]
  cases hfv : findV st.posts ("BLOG#" ++ i) with
  | none => exact ⟨hA, hB, hC, hD⟩
  | some it =>
    dsimp only [Option.map, from_item]
    have hmem : ("BLOG#" ++ i, it) ∈ st.posts := findV_mem hfv
    by_cases hcat : it.Data.category ≠ ""
    · rw [if_pos hcat]
      have hsome := hA ("BLOG#" ++ i, it) hmem hcat
      rw [Option.isSome_iff_exists] at hsome
      obtain ⟨dRec, hfound⟩ := hsome
      apply catInv_posts_decrement st _ st.time st.uuids it.Data.category hcat dRec hfound
        ?_ ?_ hB hD
      · intro p hp hcp
        exact hA p (mem_delV hp) hcp
      · intro c hc r hr
        have heq := countCat_delV_found (o := it) (y := "BLOG#" ++ i) c hfv
        have hbase := hC c hc r hr
        by_cases hcc : c = it.Data.category
        · rw [if_pos hcc]
          rw [if_pos (hcc ▸ rfl : it.Data.category = c)] at heq
          push_cast
          omega
        · rw [if_neg hcc]
          rw [if_neg (fun hh : it.Data.category = c => hcc hh.symm)] at heq
          push_cast
          omega
    · rw [if_neg hcat]
      apply catInv_posts_only st _ st.time st.uuids ?_ ?_ hB hD
      · intro p hp hcp
        exact hA p (mem_delV hp) hcp
      · intro c hc r hr
        have heq := countCat_delV_found (o := it) (y := "BLOG#" ++ i) c hfv
        have hbase := hC c hc r hr
        rw [not_not] at hcat
        rw [if_neg (fun hh : it.Data.category = c => hc ((hcat ▸ hh).symm))] at heq
        push_cast
        omega

/-- Replacing a post by one with the same category keeps all counts. -/
theorem countCat_putV_same {posts : List (String × BlogItem)} {pk : String}
    {old it : BlogItem} (c : String) (h : findV posts pk = some old)
    (hsame : it.Data.category = old.Data.category) :
    countCat (putV posts pk it) c = countCat posts c := by
  have heq := countCat_putV_found (o := old) it c h
  by_cases hoc : old.Data.category = c
  · rw [if_pos hoc, if_pos (hsame ▸ hoc)] at heq
    omega
  · rw [if_neg hoc, if_neg (fun hh => hoc (hsame ▸ hh))] at heq
    omega

/-- Replacing a stored post by one carrying the same category (as publish
and unpublish do) preserves the invariant. -/
theorem catInv_putV_samecat (st : DB) (pk : String) (old it2 : BlogItem)
    (t u : Nat) (hfv : findV st.posts pk = some old)
    (hsame : it2.Data.category = old.Data.category) (h : CatInv st) :
    CatInv { st with posts := putV st.posts pk it2, time := t, uuids := u } := by
  obtain ⟨hA, hB, hC, hD⟩ := h
  refine ⟨?_, hB, ?_, hD⟩
  · intro p hp hcp
    rcases mem_putV hp with h' | h'
    · subst h'
      dsimp only [] at hcp ⊢
      rw [hsame] at hcp ⊢
      exact hA (pk, old) (findV_mem hfv) hcp
    · exact hA p h' hcp
  · intro c hc r hr
    rw [countCat_putV_same c hfv hsame]
    exact hC c hc r hr

/-- `publish` preserves the category invariant. -/
theorem catInv_publish (env : Env) (st : DB) (i : String) (h : CatInv st) :
    CatInv (publish env st i).1 := by
  obtain ⟨hA, hB, hC, hD⟩ := h
  simp only [publish, update_item]
  cases hfv : findV st.posts ("BLOG#" ++ i) with
  | none => exact ⟨hA, hB, hC, hD⟩
  | some it =>
    dsimp only []
    by_cases hs : it.Status = "DRAFT"
    · rw [if_pos (by simp [hs] : decide (it.Status = "DRAFT") = true)]
      exact catInv_putV_samecat st ("BLOG#" ++ i) it _ _ _ hfv rfl ⟨hA, hB, hC, hD⟩
    · rw [if_neg (by simp [hs] : ¬ decide (it.Status = "DRAFT") = true)]
      exact ⟨hA, hB, hC, hD⟩

/-- `unpublish` preserves the category invariant. -/
theorem catInv_unpublish (env : Env) (st : DB) (i : String) (h : CatInv st) :
    CatInv (unpublish env st i).1 := by
  obtain ⟨hA, hB, hC, hD⟩ := h
  simp only [unpublish, get_by_id, update_item]
  cases hfv : findV st.posts ("BLOG#" ++ i) with
  | none => exact ⟨hA, hB, hC, hD⟩
  | some it =>
    dsimp only [Option.map]
    by_cases hs : it.Status = "PUBLISHED"
    · rw [if_pos (by simp [hs] : decide (it.Status = "PUBLISHED") = true)]
      exact catInv_putV_samecat st ("BLOG#" ++ i) it _ _ _ hfv rfl ⟨hA, hB, hC, hD⟩
    · rw [if_neg (by simp [hs] : ¬ decide (it.Status = "PUBLISHED") = true)]
      exact ⟨hA, hB, hC, hD⟩

/-- `applyUpdateData` writes exactly the supplied category, if any. -/
theorem applyUpdateData_category (d : BlogData) (f : UpdateFields) :
    (applyUpdateData d f).category = f.category.getD d.category := by
  obtain ⟨t, e, c, g, tg, r, u⟩ := f
  cases t <;> cases e <;> cases c <;> cases g <;> cases tg <;> cases r <;> cases u <;>
    simp [applyUpdateData]

/-- `update` on a missing id returns the state unchanged. -/
theorem update_final_missing (env : Env) (st : DB) (i : String) (d : UpdateFields)
    (hfv : findV st.posts ("BLOG#" ++ i) = none) :
    (update env st i d).1 = st := by
  simp only [update, get_by_id]
  rw [hfv]
  rfl

/-- The state after `update` when no category is supplied. -/
theorem update_final_none (env : Env) (st : DB) (i : String) (d : UpdateFields)
    (it : BlogItem) (hfv : findV st.posts ("BLOG#" ++ i) = some it)
    (hcat : (updateFieldsFinal env st.time d).category = none) :
    (update env st i d).1
      = { st with
          posts := putV st.posts ("BLOG#" ++ i)
            { it with Data := applyUpdateData it.Data (updateFieldsFinal env st.time d) }
          time := st.time + 1 } := by
  simp only [update, get_by_id, update_item]
  rw [hfv]
  dsimp only [Option.map, from_item]
  rw [hcat]
  rfl

/-- The state after `update` when a category is supplied. -/
theorem update_final_some (env : Env) (st : DB) (i : String) (d : UpdateFields)
    (it : BlogItem) (newc : String)
    (hfv : findV st.posts ("BLOG#" ++ i) = some it)
    (hcat : (updateFieldsFinal env st.time d).category = some newc) :
    (update env st i d).1
      = reconcileCategories
          { st with
            posts := putV st.posts ("BLOG#" ++ i)
              { it with Data := applyUpdateData it.Data (updateFieldsFinal env st.time d) }
            time := st.time + 1 }
          it.Data.category newc := by
  simp only [update, get_by_id, update_item]
  rw [hfv]
  dsimp only [Option.map, from_item]
  rw [hcat]
  rfl

/-- The state change of a found decrement, in full. -/
theorem decrement_found_state (st : DB) (c : String) (dRec : CatData)
    (h : findV st.cats ("BLOG#CATEGORY#" ++ c) = some dRec) :
    decrement_category_count st c
      = DB.mk st.posts
          (putV st.cats ("BLOG#CATEGORY#" ++ c)
            { category := dRec.category, count := dRec.count - 1 })
          st.time st.uuids := by
  unfold decrement_category_count decrement_category_count_raw
  dsimp only []
  rw [h]

/-- Master lemma for re-categorisation: replace the posts, decrement the
old category's (existing) aggregate, then increment the new category's. -/
theorem catInv_posts_dec_inc (st : DB) (posts' : List (String × BlogItem))
    (t u : Nat) (cO cN : String) (hcO : cO ≠ "") (hcN : cN ≠ "")
    (hne : ¬ cN = cO) (dRec : CatData)
    (hfound : findV st.cats ("BLOG#CATEGORY#" ++ cO) = some dRec)
    (hA : ∀ p ∈ posts', p.2.Data.category ≠ "" → p.2.Data.category = cN ∨
        (findV st.cats ("BLOG#CATEGORY#" ++ p.2.Data.category)).isSome = true)
    (hC : ∀ c, c ≠ "" → ∀ r, findV st.cats ("BLOG#CATEGORY#" ++ c) = some r →
        (countCat posts' c : Int) ≤
          (if c = cN then r.count + 1 else if c = cO then r.count - 1 else r.count))
    (hCnew : findV st.cats ("BLOG#CATEGORY#" ++ cN) = none →
        (countCat posts' cN : Int) ≤ 1)
    (hB : ∀ q ∈ st.cats, ∃ c, c ≠ "" ∧ q.1 = "BLOG#CATEGORY#" ++ c)
    (hD : (st.cats.map Prod.fst).Nodup) :
    CatInv (increment_category_count
      (decrement_category_count (DB.mk posts' st.cats t u) cO) cN) := by
  rw [decrement_found_state (DB.mk posts' st.cats t u) cO dRec hfound]
  apply catInv_posts_increment
    (DB.mk st.posts
      (putV st.cats ("BLOG#CATEGORY#" ++ cO)
        { category := dRec.category, count := dRec.count - 1 })
      st.time st.uuids)
    posts' t u cN hcN
  · intro p hp hcp
    rcases hA p hp hcp with h' | h'
    · exact Or.inl h'
    · right
      dsimp only []
      rw [findV_putV]
      by_cases hkey : "BLOG#CATEGORY#" ++ cO = "BLOG#CATEGORY#" ++ p.2.Data.category
      · rw [if_pos hkey]
        rfl
      · rw [if_neg hkey]
        exact h'
  · intro c hc r hr
    dsimp only [] at hr
    rw [findV_putV] at hr
    by_cases hkey : "BLOG#CATEGORY#" ++ cO = "BLOG#CATEGORY#" ++ c
    · have hcc : cO = c := catKey_inj hkey
      rw [if_pos hkey] at hr
      have hrv : r = { category := dRec.category, count := dRec.count - 1 } := by
        rw [← Option.some_inj, ← hr]
      have h1 := hC c hc dRec (hcc ▸ hfound)
      rw [if_neg (fun hh : c = cN => hne (hh ▸ hcc.symm ▸ rfl)),
        if_pos hcc.symm] at h1
      rw [if_neg (fun hh : c = cN => hne (hh ▸ hcc.symm ▸ rfl)), hrv]
      exact h1
    · rw [if_neg hkey] at hr
      have h1 := hC c hc r hr
      by_cases hccn : c = cN
      · rw [if_pos hccn] at h1 ⊢
        exact h1
      · rw [if_neg hccn] at h1 ⊢
        rw [if_neg (fun hh : c = cO => hkey (hh ▸ rfl))] at h1
        exact h1
  · intro hnone
    dsimp only [] at hnone
    rw [findV_putV] at hnone
    by_cases hkey : "BLOG#CATEGORY#" ++ cO = "BLOG#CATEGORY#" ++ cN
    · rw [if_pos hkey] at hnone
      cases hnone
    · rw [if_neg hkey] at hnone
      exact hCnew hnone
  · intro q hq
    dsimp only [] at hq
    rcases mem_putV hq with h' | h'
    · exact ⟨cO, hcO, h' ▸ rfl⟩
    · exact hB q h'
  · dsimp only []
    exact nodup_keys_putV hD _ _

/-- `update` preserves the category invariant. -/
theorem catInv_update (env : Env) (st : DB) (i : String) (d : UpdateFields)
    (h : CatInv st) : CatInv (update env st i d).1 := by
  obtain ⟨hA, hB, hC, hD⟩ := h
  cases hfv : findV st.posts ("BLOG#" ++ i) with
  | none =>
    rw [update_final_missing env st i d hfv]
    exact ⟨hA, hB, hC, hD⟩
  | some it =>
    have hcatF := applyUpdateData_category it.Data (updateFieldsFinal env st.time d)
    cases hcat : (updateFieldsFinal env st.time d).category with
    | none =>
      rw [update_final_none env st i d it hfv hcat]
      refine catInv_putV_samecat st _ it _ _ _ hfv ?_ ⟨hA, hB, hC, hD⟩
      dsimp only []
      rw [hcatF, hcat]
      rfl
    | some newc =>
      rw [update_final_some env st i d it newc hfv hcat]
      have hstar : ({ it with
          Data := applyUpdateData it.Data (updateFieldsFinal env st.time d) } :
            BlogItem).Data.category = newc := by
        dsimp only []
        rw [hcatF, hcat]
        rfl
      have heqc : ∀ c, countCat (putV st.posts ("BLOG#" ++ i)
            { it with Data := applyUpdateData it.Data (updateFieldsFinal env st.time d) }) c
            + (if it.Data.category = c then 1 else 0)
          = countCat st.posts c + (if newc = c then 1 else 0) := by
        intro c
        have hh := countCat_putV_found (o := it)
          ({ it with Data := applyUpdateData it.Data (updateFieldsFinal env st.time d) })
          c hfv
        rw [hstar] at hh
        exact hh
      unfold reconcileCategories
      by_cases hne : newc ≠ it.Data.category
      · rw [if_pos hne]
        dsimp only []
        by_cases hold0 : it.Data.category ≠ ""
        · rw [if_pos hold0]
          have hsome := hA ("BLOG#" ++ i, it) (findV_mem hfv) hold0
          rw [Option.isSome_iff_exists] at hsome
          obtain ⟨dRec, hfound⟩ := hsome
          by_cases hnew0 : newc ≠ ""
          · rw [if_pos hnew0]
            apply catInv_posts_dec_inc st _ (st.time + 1) st.uuids it.Data.category newc
              hold0 hnew0 hne dRec hfound ?_ ?_ ?_ hB hD
            · intro p hp hcp
              rcases mem_putV hp with h' | h'
              · exact Or.inl (h' ▸ hstar)
              · exact Or.inr (hA p h' hcp)
            · intro c hc r hr
              have hbase := hC c hc r hr
              have he := heqc c
              by_cases hcn : c = newc
              · rw [if_pos hcn]
                have hnc : ¬ it.Data.category = c := by
                  intro hh
                  rw [hcn] at hh
                  exact hne hh.symm
                rw [if_neg hnc, if_pos hcn.symm] at he
                push_cast
                omega
              · by_cases hco : c = it.Data.category
                · rw [if_neg hcn, if_pos hco]
                  rw [if_pos hco.symm, if_neg (fun hh : newc = c => hne (hco ▸ hh))] at he
                  push_cast
                  omega
                · rw [if_neg hcn, if_neg hco]
                  rw [if_neg (fun hh : it.Data.category = c => hco hh.symm),
                    if_neg (fun hh : newc = c => hcn hh.symm)] at he
                  push_cast
                  omega
            · intro hnone
              have hzero : countCat st.posts newc = 0 := by
                by_contra hpos
                obtain ⟨p, hp, hpc⟩ := countCat_pos (Nat.pos_of_ne_zero hpos)
                have hcov := hA p hp (hpc ▸ hnew0)
                rw [hpc, hnone] at hcov
                cases hcov
              have he := heqc newc
              rw [if_neg (fun hh : it.Data.category = newc => hne hh.symm),
                if_pos rfl, hzero] at he
              push_cast
              omega
          · rw [if_neg hnew0]
            have hnewe : newc = "" := not_not.mp hnew0
            apply catInv_posts_decrement st _ (st.time + 1) st.uuids it.Data.category
              hold0 dRec hfound ?_ ?_ hB hD
            · intro p hp hcp
              rcases mem_putV hp with h' | h'
              · exact absurd (h' ▸ hstar : p.2.Data.category = newc)
                  (fun hh => hcp (hh.trans hnewe))
              · exact hA p h' hcp
            · intro c hc r hr
              have hbase := hC c hc r hr
              have he := heqc c
              rw [if_neg (fun hh : newc = c => hc ((hnewe ▸ hh).symm))] at he
              by_cases hco : c = it.Data.category
              · rw [if_pos hco]
                rw [if_pos hco.symm] at he
                push_cast
                omega
              · rw [if_neg hco]
                rw [if_neg (fun hh : it.Data.category = c => hco hh.symm)] at he
                push_cast
                omega
        · rw [if_neg hold0]
          have holde : it.Data.category = "" := not_not.mp hold0
          by_cases hnew0 : newc ≠ ""
          · rw [if_pos hnew0]
            apply catInv_posts_increment st _ (st.time + 1) st.uuids newc hnew0
              ?_ ?_ ?_ hB hD
            · intro p hp hcp
              rcases mem_putV hp with h' | h'
              · exact Or.inl (h' ▸ hstar)
              · exact Or.inr (hA p h' hcp)
            · intro c hc r hr
              have hbase := hC c hc r hr
              have he := heqc c
              rw [if_neg (fun hh : it.Data.category = c => hc ((holde ▸ hh).symm))] at he
              by_cases hcn : c = newc
              · rw [if_pos hcn]
                rw [if_pos hcn.symm] at he
                push_cast
                omega
              · rw [if_neg hcn]
                rw [if_neg (fun hh : newc = c => hcn hh.symm)] at he
                push_cast
                omega
            · intro hnone
              have hzero : countCat st.posts newc = 0 := by
                by_contra hpos
                obtain ⟨p, hp, hpc⟩ := countCat_pos (Nat.pos_of_ne_zero hpos)
                have hcov := hA p hp (hpc ▸ hnew0)
                rw [hpc, hnone] at hcov
                cases hcov
              have he := heqc newc
              rw [if_neg (fun hh : it.Data.category = newc => hne hh.symm),
                if_pos rfl, hzero] at he
              push_cast
              omega
          · exact absurd (by rw [not_not.mp hnew0, holde]) hne
      · rw [if_neg hne]
        refine catInv_putV_samecat st _ it _ _ _ hfv ?_ ⟨hA, hB, hC, hD⟩
        dsimp only []
        rw [hcatF, hcat]
        exact not_not.mp hne

/-- The category invariant holds in every reachable state. -/
theorem catInv_applyOps (env : Env) (ops : List Op) :
    CatInv (applyOps env ops) := by
  have main : ∀ (l : List Op) (st : DB), CatInv st →
      CatInv (l.foldl (applyOp env) st) := by
    intro l
    induction l with
    | nil => intro st h; exact h
    | cons o t ih =>
      intro st h
      refine ih _ ?_
      cases o with
      | create dd => exact catInv_create env st dd h
      | update ii dd => exact catInv_update env st ii dd h
      | publish ii => exact catInv_publish env st ii h
      | unpublish ii => exact catInv_unpublish env st ii h
      | delete ii => exact catInv_delete st ii h
  refine main ops emptyDB ⟨?_, ?_, ?_, ?_⟩
  · intro p hp
    cases hp
  · intro q hq
    cases hq
  · intro c hc r hr
    cases hr
  · exact List.nodup_nil

/-- C5: over every sequence of repository operations from the empty table,
no stored category aggregate ever has a negative count; the boolean
returned by `delete` depends only on the post's existence (never on the
aggregates); and a decrement whose aggregate record is missing fails inside
the store and is swallowed, leaving the state untouched. -/
theorem category_count_invariant :
    (∀ (env : Env) (ops : List Op) (q : String × CatData),
      q ∈ (applyOps env ops).cats → 0 ≤ q.2.count) ∧
    (∀ (st : DB) (id : String),
      ((delete st id).2 = true ↔ (findV st.posts ("BLOG#" ++ id)).isSome = true)) ∧
    (∀ (st : DB) (c : String),
      findV st.cats ("BLOG#CATEGORY#" ++ c) = none →
      decrement_category_count_raw st c = Except.error "ValidationException" ∧
      decrement_category_count st c = st) := by
  refine ⟨?_, ?_, ?_⟩
  · intro env ops q hq
    obtain ⟨hA, hB, hC, hD⟩ := catInv_applyOps env ops
    have hfind := nodup_mem_findV hD hq
    obtain ⟨c, hc, hkey⟩ := hB q hq
    have hbound := hC c hc q.2 (hkey ▸ hfind)
    exact le_trans (Int.natCast_nonneg _) hbound
  · intro st id
    simp only [delete, get_by_id]
    cases hfv : findV st.posts ("BLOG#" ++ id) with
    | none => simp
    | some it => simp
  · intro st c hnone
    refine ⟨?_, decrement_missing st c hnone⟩
    unfold decrement_category_count_raw
    dsimp only []
    rw [hnone]

/-- Witness for `category_count_invariant`: after creating a post in
category "Backend" the stored aggregate's count is non-negative; deleting
the missing id "zzz" reports false; and decrementing the absent "DevOps"
aggregate errors internally but returns the state unchanged. -/
theorem category_count_invariant_witness :
    (stOps.cats.getD 0 ("K", { category := "x", count := 0 }) ∈ stOps.cats ∧
      0 ≤ (stOps.cats.getD 0 ("K", { category := "x", count := 0 })).2.count) ∧
    ((delete stW "zzz").2 = true ↔ (findV stW.posts ("BLOG#" ++ "zzz")).isSome = true) ∧
    (findV stW.cats ("BLOG#CATEGORY#" ++ "DevOps") = none ∧
      decrement_category_count_raw stW "DevOps" = Except.error "ValidationException" ∧
      decrement_category_count stW "DevOps" = stW) :=
  ⟨⟨by decide, category_count_invariant.1 envW opsW _ (by decide)⟩,
   category_count_invariant.2.1 stW "zzz",
   ⟨by decide,
    (category_count_invariant.2.2 stW "DevOps" (by decide)).1,
    (category_count_invariant.2.2 stW "DevOps" (by decide)).2⟩⟩

/-- The daily visitor count currently stored for a date (0 when absent). -/
def dailyCountOf (st : VDB) (d : String) : Nat :=
  match findV st.daily d with
  | some dd => dd.count
  | none => 0

/-- What a first-sight `track_view` does: returns the incremented count,
stores it, and writes this session's marker without touching others. -/
theorem track_view_miss_spec (env : AEnv) (st : ADB) (ct cid sid : String)
    (h : findV st.sessions (sid, ct ++ "#" ++ cid) = none) :
    (track_view env st ct cid sid).2 = get_view_count st ct cid + 1 ∧
    get_view_count (track_view env st ct cid sid).1 ct cid
      = get_view_count st ct cid + 1 ∧
    (track_view env st ct cid sid).1.sessions
      = putV st.sessions (sid, ct ++ "#" ++ cid)
          { viewedAt := env.clock (st.time + 3)
            expiresAt := env.epoch (st.time + 2) + 86400 } := by
  simp only [track_view]
  rw [h]
  dsimp only []
  cases hv : findV st.views (ct ++ "#" ++ cid) with
  | none =>
    rw [findV_putV, if_pos rfl]
    refine ⟨?_, ?_, rfl⟩
    · simp [get_view_count, hv]
    · simp [get_view_count, findV_putV, hv]
  | some vi =>
    refine ⟨?_, ?_, rfl⟩
    · simp [get_view_count, hv]
    · simp [get_view_count, findV_putV, hv]

/-- A `track_view` by one session never touches another session's marker. -/
theorem track_view_other_session (env : AEnv) (st : ADB) (ct cid s₁ s₂ : String)
    (hne : s₁ ≠ s₂) (h : findV st.sessions (s₁, ct ++ "#" ++ cid) = none) :
    findV (track_view env st ct cid s₁).1.sessions (s₂, ct ++ "#" ++ cid)
      = findV st.sessions (s₂, ct ++ "#" ++ cid) := by
  rw [(track_view_miss_spec env st ct cid s₁ h).2.2, findV_putV,
    if_neg (fun hk : (s₁, ct ++ "#" ++ cid) = (s₂, ct ++ "#" ++ cid) =>
      hne (congrArg Prod.fst hk))]

/-- What a first-sight (or stale-marker) `track_visitor` does via the miss
path: the count goes up by one, is stored, and only this session's marker
is rewritten. -/
theorem track_visitor_miss_spec (env : VEnv) (st : VDB) (sid today : String) :
    (track_visitor_miss env st sid today).2.1 = dailyCountOf st today + 1 ∧
    dailyCountOf (track_visitor_miss env st sid today).1 today
      = dailyCountOf st today + 1 ∧
    (track_visitor_miss env st sid today).1.sessions
      = putV st.sessions sid
          { lastTrackedDate := today
            lastTrackedTime := env.clock (st.time + 2)
            expiresAt := env.ttl (st.time + 1) } ∧
    (track_visitor_miss env st sid today).1.time = st.time + 5 := by
  simp only [track_visitor_miss]
  cases hd : findV st.daily today with
  | none =>
    rw [findV_putV, if_pos rfl]
    refine ⟨?_, ?_, ?_, ?_⟩
    · simp [dailyCountOf, hd]
    · simp [dailyCountOf, findV_putV, hd]
    · trivial
    · trivial
  | some dd =>
    rw [findV_putV, if_pos rfl]
    refine ⟨?_, ?_, ?_, ?_⟩
    · simp [dailyCountOf, hd]
    · simp [dailyCountOf, findV_putV, hd]
    · trivial
    · trivial

/-- A missing marker always sends `track_visitor` down the miss path. -/
theorem track_visitor_of_none (env : VEnv) (st : VDB) (sid : String)
    (h : findV st.sessions sid = none) :
    track_visitor env st sid
      = track_visitor_miss env st sid (env.dayStr (env.dayIdx st.time)) := by
  simp only [track_visitor]
  rw [h]

/-- C3: a second `track_view` from the same session while its marker is
stored returns the counter unchanged with no writes at all; two distinct
sessions each increment, so the counter strictly increases.  The same holds
for `track_visitor` with its same-calendar-day marker check. -/
theorem dedup_idempotent_and_distinct :
    (∀ (env : AEnv) (st : ADB) (ct cid sid : String) (m : SessionView),
      findV st.sessions (sid, ct ++ "#" ++ cid) = some m →
      track_view env st ct cid sid = (st, get_view_count st ct cid)) ∧
    (∀ (env : AEnv) (st : ADB) (ct cid s₁ s₂ : String),
      s₁ ≠ s₂ →
      findV st.sessions (s₁, ct ++ "#" ++ cid) = none →
      findV st.sessions (s₂, ct ++ "#" ++ cid) = none →
      (track_view env (track_view env st ct cid s₁).1 ct cid s₂).2
        = (track_view env st ct cid s₁).2 + 1) ∧
    (∀ (env : VEnv) (st : VDB) (sid : String) (m : VSession),
      findV st.sessions sid = some m →
      m.lastTrackedDate = env.dayStr (env.dayIdx st.time) →
      track_visitor env st sid
        = ({ st with time := st.time + 1 },
           dailyCountOf st (env.dayStr (env.dayIdx st.time)), sid)) ∧
    (∀ (env : VEnv) (st : VDB) (s₁ s₂ : String),
      (∀ n k, env.dayIdx n = env.dayIdx k) →
      s₁ ≠ s₂ →
      findV st.sessions s₁ = none →
      findV st.sessions s₂ = none →
      (track_visitor env (track_visitor env st s₁).1 s₂).2.1
        = (track_visitor env st s₁).2.1 + 1) := by
  refine ⟨?_, ?_, ?_, ?_⟩
  · intro env st ct cid sid m hm
    simp only [track_view]
    rw [hm]
    rfl
  · intro env st ct cid s₁ s₂ hne h1 h2
    have h2' : findV (track_view env st ct cid s₁).1.sessions
        (s₂, ct ++ "#" ++ cid) = none := by
      rw [track_view_other_session env st ct cid s₁ s₂ hne h1]
      exact h2
    rw [(track_view_miss_spec env _ ct cid s₂ h2').1,
      (track_view_miss_spec env st ct cid s₁ h1).2.1,
      (track_view_miss_spec env st ct cid s₁ h1).1]
  · intro env st sid m hm hdate
    simp only [track_visitor]
    rw [hm]
    dsimp only []
    rw [if_pos hdate]
    rfl
  · intro env st s₁ s₂ hday hne h1 h2
    rw [track_visitor_of_none env st s₁ h1]
    have h2' : findV (track_visitor_miss env st s₁
        (env.dayStr (env.dayIdx st.time))).1.sessions s₂ = none := by
      rw [(track_visitor_miss_spec env st s₁ _).2.2.1, findV_putV, if_neg hne]
      exact h2
    rw [track_visitor_of_none env _ s₂ h2']
    have htoday : env.dayStr (env.dayIdx (track_visitor_miss env st s₁
          (env.dayStr (env.dayIdx st.time))).1.time)
        = env.dayStr (env.dayIdx st.time) :=
      congrArg env.dayStr (hday _ _)
    rw [htoday]
    rw [(track_visitor_miss_spec env _ s₂ _).1,
      (track_visitor_miss_spec env st s₁ _).2.1,
      (track_visitor_miss_spec env st s₁ _).1]

/-- A constant analytics environment for concrete evaluation. -/
def envA3 : AEnv := { clock := fun _ => "T", epoch := fun _ => 0 }

/-- An analytics state already holding a session marker for
session `s1` on the subject `blog#b1`. -/
def stA3 : ADB :=
  { views := [], sessions := [(("s1", "blog#b1"), { viewedAt := "T", expiresAt := 0 })],
    total := none, time := 0 }

/-- A constant visitor environment: every tick falls on the same day `D`. -/
def envV3 : VEnv :=
  { clock := fun _ => "T", dayIdx := fun _ => 0, dayStr := fun _ => "D", ttl := fun _ => 0 }

/-- A visitor state already holding a marker for session `s1` dated today. -/
def stV3 : VDB :=
  { daily := [],
    sessions := [("s1", { lastTrackedDate := "D", lastTrackedTime := "T", expiresAt := 0 })],
    total := none, time := 0 }

theorem dedup_idempotent_and_distinct_witness :
    track_view envA3 stA3 "blog" "b1" "s1" = (stA3, get_view_count stA3 "blog" "b1") ∧
    (track_view envA3 (track_view envA3 emptyADB "blog" "b1" "sa").1 "blog" "b1" "sb").2
      = (track_view envA3 emptyADB "blog" "b1" "sa").2 + 1 ∧
    track_visitor envV3 stV3 "s1"
      = ({ stV3 with time := stV3.time + 1 },
         dailyCountOf stV3 (envV3.dayStr (envV3.dayIdx stV3.time)), "s1") ∧
    (track_visitor envV3 (track_visitor envV3 emptyVDB "sa").1 "sb").2.1
      = (track_visitor envV3 emptyVDB "sa").2.1 + 1 :=
  ⟨dedup_idempotent_and_distinct.1 envA3 stA3 "blog" "b1" "s1"
      { viewedAt := "T", expiresAt := 0 } (by decide),
   dedup_idempotent_and_distinct.2.1 envA3 emptyADB "blog" "b1" "sa" "sb"
      (by decide) rfl rfl,
   dedup_idempotent_and_distinct.2.2.1 envV3 stV3 "s1"
      { lastTrackedDate := "D", lastTrackedTime := "T", expiresAt := 0 } (by decide) rfl,
   dedup_idempotent_and_distinct.2.2.2 envV3 emptyVDB "sa" "sb"
      (fun _ _ => rfl) (by decide) rfl rfl⟩

/-- Looking a date up in the map built from the batch-got aggregates gives
the stored count when the date is in the requested window and its aggregate
exists, and nothing otherwise — provided every stored aggregate is keyed by
its own `Data.date` (which the table layout `PK = VISITOR#DAILY#date`
guarantees). -/
theorem findV_countMap (l : List (String × DailyData))
    (hdates : ∀ p ∈ l, (p.2).date = p.1) :
    ∀ (ds : List String) (d : String),
    findV ((ds.filterMap (fun x => findV l x)).map
        (fun (it : DailyData) => (it.date, it.count))) d
      = if d ∈ ds then (findV l d).map (fun it => it.count) else none := by
  intro ds
  induction ds with
  | nil => intro d; simp
  | cons x t ih =>
    intro d
    cases hx : findV l x with
    | none =>
      simp only [List.filterMap_cons, hx]
      rw [ih d]
      by_cases hdx : d = x
      · subst hdx
        by_cases hdt : d ∈ t <;> simp [hx, List.mem_cons, hdt]
      · simp [List.mem_cons, hdx]
    | some it =>
      have hdate : it.date = x := hdates (x, it) (findV_mem hx)
      simp only [List.filterMap_cons, hx, List.map_cons, hdate]
      rw [findV_cons]
      by_cases hdx : d = x
      · subst hdx
        rw [if_pos rfl, if_pos (List.mem_cons_self _ _), hx]
        rfl
      · rw [if_neg (fun h => hdx h.symm), ih d]
        simp [List.mem_cons, hdx]

/-- Reversing `range n` lists the same indices counted down from the top. -/
theorem range_reverse_map (n : Nat) :
    (List.range n).reverse = (List.range n).map (fun i => n - 1 - i) := by
  have h1 := List.reverse_range' 0 n
  rw [← List.range_eq_range'] at h1
  rw [h1]
  exact List.map_congr_left fun i _ => by omega

/-- `dailyCountOf` restated through `Option.map`/`getD`. -/
theorem dailyCountOf_eq (st : VDB) (d : String) :
    ((findV st.daily d).map (fun it => it.count)).getD 0 = dailyCountOf st d := by
  cases h : findV st.daily d <;> simp [dailyCountOf, h]

/-- A visitor environment with a computable calendar: every tick is day 0
and day `i` prints as the decimal numeral `10 + i`. -/
def env7 : VEnv :=
  { clock := fun _ => "T", dayIdx := fun _ => 0,
    dayStr := fun i => decRepr (10 + i).toNat, ttl := fun _ => 0 }

/-- C7: for every requested window of `days` days, `get_daily_trends`
returns exactly one entry per calendar day of the window, oldest first
(entry `k` carries day `today - (days - 1 - k)`), whose count is the stored
aggregate for that day or 0 when none is recorded — provided aggregates are
keyed by their own date and the calendar day does not change during the
loop's clock readings.  In particular a 7-day window with a single visit
today yields 7 entries, six of them 0 and the last one 1. -/
theorem daily_trends_window :
    (∀ (env : VEnv) (st : VDB) (days : Nat),
      (∀ p ∈ st.daily, (p.2).date = p.1) →
      (∀ i < days, env.dayIdx (st.time + i) = env.dayIdx st.time) →
      get_daily_trends env st days
        = (List.range days).map (fun k =>
            (env.dayStr (env.dayIdx st.time - (days - 1 - k : Nat)),
             dailyCountOf st (env.dayStr (env.dayIdx st.time - (days - 1 - k : Nat)))))) ∧
    get_daily_trends env7 (track_visitor env7 emptyVDB "s").1 7
      = [("4", 0), ("5", 0), ("6", 0), ("7", 0), ("8", 0), ("9", 0), ("10", 1)] := by
  constructor
  · intro env st days hdates hconst
    have hdl : (List.range days).map
          (fun i => env.dayStr (env.dayIdx (st.time + i) - (i : Int)))
        = (List.range days).map (fun (i : Nat) => env.dayStr (env.dayIdx st.time - (i : Int))) :=
      List.map_congr_left (fun i hi => by rw [hconst i (List.mem_range.mp hi)])
    simp only [get_daily_trends]
    rw [hdl, ← List.map_reverse, range_reverse_map, List.map_map, List.map_map]
    apply List.map_congr_left
    intro k hk
    have hk2 : k < days := List.mem_range.mp hk
    simp only [Function.comp_apply]
    rw [findV_countMap st.daily hdates]
    have hmem : env.dayStr (env.dayIdx st.time - ((days - 1 - k : Nat) : Int))
        ∈ (List.range days).map (fun (i : Nat) => env.dayStr (env.dayIdx st.time - (i : Int))) :=
      List.mem_map.mpr ⟨days - 1 - k,
        List.mem_range.mpr (by omega : days - 1 - k < days), rfl⟩
    rw [if_pos hmem, dailyCountOf_eq]
  · decide

theorem daily_trends_window_witness :
    get_daily_trends env7 emptyVDB 2
      = (List.range 2).map (fun k =>
          (env7.dayStr (env7.dayIdx emptyVDB.time - (2 - 1 - k : Nat)),
           dailyCountOf emptyVDB (env7.dayStr (env7.dayIdx emptyVDB.time - (2 - 1 - k : Nat))))) :=
  daily_trends_window.1 env7 emptyVDB 2 (by decide) (fun _ _ => rfl)

/-! ## Padded-token ordering -/

/-- A shared prefix never decides the lexicographic comparison. -/
theorem lexLt_append_common (p : List Char) :
    ∀ x y : List Char, lexLtChars (p ++ x) (p ++ y) = lexLtChars x y := by
  induction p with
  | nil => intro x y; rfl
  | cons c cs ih =>
    intro x y
    simp only [List.cons_append, lexLtChars, lt_irrefl, if_false]
    exact ih x y

/-- `padBE` renders exactly the requested number of characters. -/
theorem padBE_length : ∀ (w n : Nat), (padBE w n).length = w := by
  intro w
  induction w with
  | zero => intro n; rfl
  | succ w ih =>
    intro n
    simp [padBE, ih]

/-- Rendering 0 gives only zero characters. -/
theorem padBE_zero : ∀ k : Nat, padBE k 0 = List.replicate k '0' := by
  intro k
  induction k with
  | zero => rfl
  | succ k ih =>
    show padBE k (0 / 10) ++ [Nat.digitChar (0 % 10)] = _
    rw [Nat.zero_div, ih]
    show List.replicate k '0' ++ ['0'] = _
    rw [← List.replicate_succ']

/-- Widening the field of a number that fits in `w` digits just prepends
zero characters. -/
theorem padBE_widen : ∀ (w k n : Nat), n < 10 ^ w →
    padBE (k + w) n = List.replicate k '0' ++ padBE w n := by
  intro w
  induction w with
  | zero =>
    intro k n hn
    have hn0 : n = 0 := by simpa using hn
    subst hn0
    simpa [padBE] using padBE_zero k
  | succ w ih =>
    intro k n hn
    have hdiv : n / 10 < 10 ^ w := by
      rw [Nat.div_lt_iff_lt_mul (by norm_num : 0 < 10)]
      rw [pow_succ] at hn
      exact hn
    show padBE (k + w) (n / 10) ++ [Nat.digitChar (n % 10)]
        = List.replicate k '0' ++ (padBE w (n / 10) ++ [Nat.digitChar (n % 10)])
    rw [ih k (n / 10) hdiv, List.append_assoc]

/-- The fuel-driven digit counter really bounds its argument. -/
theorem lt_pow_digitsLenAux : ∀ (fuel n : Nat), n ≤ fuel →
    n < 10 ^ digitsLenAux fuel n := by
  intro fuel
  induction fuel with
  | zero =>
    intro n hn
    have : n = 0 := Nat.le_zero.mp hn
    subst this
    simp [digitsLenAux]
  | succ fuel ih =>
    intro n hn
    by_cases h10 : n < 10
    · simp [digitsLenAux, h10]
    · have hdle : n / 10 ≤ fuel := by
        have := Nat.div_lt_self (by omega : 0 < n) (by norm_num : 1 < 10)
        omega
      have hdiv := ih (n / 10) hdle
      simp only [digitsLenAux, h10, if_false]
      rw [pow_succ]
      omega

/-- Numbers below `10 ^ (w + 1)` need at most `w + 1` digits, whatever the
fuel. -/
theorem digitsLenAux_le : ∀ (fuel n w : Nat), n < 10 ^ (w + 1) →
    digitsLenAux fuel n ≤ w + 1 := by
  intro fuel
  induction fuel with
  | zero => intro n w _; simp [digitsLenAux]
  | succ fuel ih =>
    intro n w hn
    by_cases h10 : n < 10
    · simp [digitsLenAux, h10]
    · cases w with
      | zero => simp at hn; omega
      | succ w =>
        have hdiv : n / 10 < 10 ^ (w + 1) := by
          rw [Nat.div_lt_iff_lt_mul (by norm_num : 0 < 10)]
          rw [pow_succ] at hn
          exact hn
        have := ih (n / 10) w hdiv
        simp only [digitsLenAux, h10, if_false]
        omega

/-- Appending one character to equally long lists compares last. -/
theorem lexLt_snoc : ∀ (p q : List Char), p.length = q.length →
    ∀ c d : Char,
    (lexLtChars (p ++ [c]) (q ++ [d]) = true ↔
      lexLtChars p q = true ∨ (p = q ∧ c < d)) := by
  intro p
  induction p with
  | nil =>
    intro q hlen c d
    have hq : q = [] := List.eq_nil_of_length_eq_zero hlen.symm
    subst hq
    simp only [List.nil_append, lexLtChars]
    by_cases hcd : c < d
    · simp [hcd]
    · by_cases hdc : d < c <;> simp [hcd, hdc, lexLtChars]
  | cons x p ih =>
    intro q hlen c d
    cases q with
    | nil => simp at hlen
    | cons y q =>
      have hlen2 : p.length = q.length := by simpa using hlen
      simp only [List.cons_append, lexLtChars]
      by_cases hxy : x < y
      · simp [hxy]
      · by_cases hyx : y < x
        · simp only [if_neg hxy, if_pos hyx, Bool.false_eq_true, false_or, false_iff]
          intro h
          have h1 : x = y := by injection h.1
          exact (ne_of_gt hyx) h1
        · have hxey : x = y := le_antisymm (not_lt.mp hyx) (not_lt.mp hxy)
          subst hxey
          simp only [if_neg hxy, List.append_eq]
          rw [ih q hlen2 c d]
          simp [List.cons.injEq]

/-- Digit characters compare exactly like the digits themselves. -/
theorem digitChar_lt_iff :
    ∀ x < 10, ∀ y < 10, (Nat.digitChar x < Nat.digitChar y ↔ x < y) := by decide

/-- Digit characters are distinct on distinct digits. -/
theorem digitChar_eq_iff :
    ∀ x < 10, ∀ y < 10, (Nat.digitChar x = Nat.digitChar y ↔ x = y) := by decide

/-- On numbers that fit the field, fixed-width rendering is strictly
monotone for the lexicographic order and injective. -/
theorem padBE_order : ∀ (w a b : Nat), a < 10 ^ w → b < 10 ^ w →
    ((lexLtChars (padBE w a) (padBE w b) = true ↔ a < b) ∧
     (padBE w a = padBE w b ↔ a = b)) := by
  intro w
  induction w with
  | zero =>
    intro a b ha hb
    have ha0 : a = 0 := by simpa using ha
    have hb0 : b = 0 := by simpa using hb
    subst ha0; subst hb0
    refine ⟨?_, ?_⟩ <;> simp [padBE, lexLtChars]
  | succ w ih =>
    intro a b ha hb
    have hdiva : a / 10 < 10 ^ w := by
      rw [Nat.div_lt_iff_lt_mul (by norm_num : 0 < 10)]
      rw [pow_succ] at ha
      exact ha
    have hdivb : b / 10 < 10 ^ w := by
      rw [Nat.div_lt_iff_lt_mul (by norm_num : 0 < 10)]
      rw [pow_succ] at hb
      exact hb
    have hih := ih (a / 10) (b / 10) hdiva hdivb
    have hlen : (padBE w (a / 10)).length = (padBE w (b / 10)).length := by
      rw [padBE_length, padBE_length]
    constructor
    · show lexLtChars (padBE w (a / 10) ++ [Nat.digitChar (a % 10)])
          (padBE w (b / 10) ++ [Nat.digitChar (b % 10)]) = true ↔ a < b
      rw [lexLt_snoc (padBE w (a / 10)) (padBE w (b / 10)) hlen]
      rw [hih.1, hih.2,
        digitChar_lt_iff (a % 10) (Nat.mod_lt a (by norm_num)) (b % 10)
          (Nat.mod_lt b (by norm_num))]
      omega
    · show padBE w (a / 10) ++ [Nat.digitChar (a % 10)]
          = padBE w (b / 10) ++ [Nat.digitChar (b % 10)] ↔ a = b
      constructor
      · intro h
        have hp := List.append_inj h hlen
        have h1 := hih.2.mp hp.1
        have h2 : Nat.digitChar (a % 10) = Nat.digitChar (b % 10) := by
          have := hp.2
          injection this
        have h3 := (digitChar_eq_iff (a % 10) (Nat.mod_lt a (by norm_num)) (b % 10)
          (Nat.mod_lt b (by norm_num))).mp h2
        omega
      · intro h; rw [h]

/-- `str(count).zfill(10)` is exactly the 10-wide rendering once the count
fits in 10 digits. -/
theorem zfill_decRepr (a : Nat) (ha : a < 10 ^ 10) :
    (zfill 10 (decRepr a)).data = padBE 10 a := by
  have hlen : (decRepr a).data.length = digitsLenAux a a := by
    show (padBE (digitsLenAux a a) a).length = _
    rw [padBE_length]
  have hle : digitsLenAux a a ≤ 10 := digitsLenAux_le a a 9 ha
  have hbound : a < 10 ^ digitsLenAux a a := lt_pow_digitsLenAux a a le_rfl
  show List.replicate (10 - (decRepr a).data.length) '0' ++ (decRepr a).data = _
  rw [hlen]
  show List.replicate (10 - digitsLenAux a a) '0' ++ padBE (digitsLenAux a a) a = _
  rw [← padBE_widen (digitsLenAux a a) (10 - digitsLenAux a a) a hbound,
    Nat.sub_add_cancel hle]

/-- The full GSI1 tokens compare exactly like the counts they encode. -/
theorem viewToken_order (a b : Nat) (ha : a < 10 ^ 10) (hb : b < 10 ^ 10) :
    strLexLt (viewToken a) (viewToken b) = true ↔ a < b := by
  show lexLtChars (viewToken a).data (viewToken b).data = true ↔ a < b
  rw [show (viewToken a).data
      = "ANALYTICS#VIEWS#".data ++ (zfill 10 (decRepr a)).data from
      String.data_append _ _,
    show (viewToken b).data
      = "ANALYTICS#VIEWS#".data ++ (zfill 10 (decRepr b)).data from
      String.data_append _ _,
    lexLt_append_common, zfill_decRepr a ha, zfill_decRepr b hb]
  exact (padBE_order 10 a b ha hb).1

/-- Two already-aggregated blog view items, with 5 and 100 views, in the
exact record shape `track_view` writes. -/
def stTop : ADB :=
  { views :=
      [("blog#b5",
        { GSI1PK := "ANALYTICS#blog", GSI1SK := some (viewToken 5),
          EntityType := "ANALYTICS_VIEW",
          Data := { contentId := "b5", contentType := "blog",
                    viewCount := 5, lastViewed := "T" } }),
       ("blog#b100",
        { GSI1PK := "ANALYTICS#blog", GSI1SK := some (viewToken 100),
          EntityType := "ANALYTICS_VIEW",
          Data := { contentId := "b100", contentType := "blog",
                    viewCount := 100, lastViewed := "T" } })],
    sessions := [], total := none, time := 0 }

set_option maxRecDepth 40000 in
/-- C8: the GSI1 sort token embeds the view count zero-padded to 10 digits,
so within that capacity lexicographic token order coincides with numeric
order; `track_view` indeed writes `some (viewToken newCount)` as the
aggregate's `GSI1SK`; and in a descending `get_top_content` query an entity
with 100 views is listed before one with 5. -/
theorem padded_token_order :
    (∀ a b : Nat, a < 10 ^ 10 → b < 10 ^ 10 →
      (strLexLt (viewToken a) (viewToken b) = true ↔ a < b)) ∧
    (∀ (env : AEnv) (st : ADB) (ct cid sid : String),
      findV st.sessions (sid, ct ++ "#" ++ cid) = none →
      (findV (track_view env st ct cid sid).1.views (ct ++ "#" ++ cid)).map
          (fun (it : ViewItem) => it.GSI1SK)
        = some (some (viewToken (get_view_count st ct cid + 1)))) ∧
    (get_top_content stTop 10).blogs = [("b100", 100), ("b5", 5)] := by
  refine ⟨viewToken_order, ?_, ?_⟩
  · intro env st ct cid sid h
    simp only [track_view]
    rw [h]
    dsimp only []
    cases hv : findV st.views (ct ++ "#" ++ cid) with
    | none => simp [findV_putV, get_view_count, hv]
    | some vi => simp [findV_putV, get_view_count, hv]
  · decide

theorem padded_token_order_witness :
    (strLexLt (viewToken 5) (viewToken 100) = true ↔ 5 < 100) ∧
    (findV (track_view envA3 emptyADB "blog" "b1" "s1").1.views
        ("blog" ++ "#" ++ "b1")).map (fun (it : ViewItem) => it.GSI1SK)
      = some (some (viewToken (get_view_count emptyADB "blog" "b1" + 1))) :=
  ⟨padded_token_order.1 5 100 (by norm_num) (by norm_num),
   padded_token_order.2.1 envA3 emptyADB "blog" "b1" "s1" rfl⟩

end Portfolio
